import Mathlib

/-!
# gext: the `Email` value type

A shallow embedding of `emails.go` (package `gext`) and a verification of its
specification.

Go strings and byte slices are sequences of bytes; a byte is a natural number
below 256.  Functions with a pointer receiver return the new receiver state
next to their Go result.  A Go `error` result is an `Option GoError`, `none`
being the nil error.
-/

namespace Gext

/-! ## Bytes and strings -/

/-- A Go `string`: an immutable sequence of bytes, each byte (`uint8`) carried
as a natural number below 256.  A `[]byte` is a `List Nat` in the same way. -/
abbrev GoString := List Nat

/-- UTF-8 encoding of one code point (`utf8.EncodeRune` on a valid rune). -/
def utf8EncodeRune (r : Nat) : List Nat :=
  if r < 0x80 then [r]
  else if r < 0x800 then [0xC0 + r / 64, 0x80 + r % 64]
  else if r < 0x10000 then [0xE0 + r / 4096, 0x80 + r / 64 % 64, 0x80 + r % 64]
  else [0xF0 + r / 262144, 0x80 + r / 4096 % 64, 0x80 + r / 64 % 64, 0x80 + r % 64]

/-- The bytes of a list of characters, in UTF-8. -/
def utf8Bytes : List Char → List Nat
  | [] => []
  | c :: cs => utf8EncodeRune c.toNat ++ utf8Bytes cs

/-- The Go string written as the literal `s`. -/
def str (s : String) : GoString := utf8Bytes s.data

/-! ## `crypto/md5` and `encoding/hex`

The MD5 message digest of RFC 1321, on 32-bit words carried as natural numbers
reduced modulo `2 ^ 32`. -/

namespace md5

/-- Reduction to a 32-bit word. -/
def w32 (x : Nat) : Nat := x % 4294967296

/-- Rotate the 32-bit word `x` left by `s` bits (`bits.RotateLeft32`). -/
def rotl (x s : Nat) : Nat := w32 ((w32 x <<< s) ||| (w32 x >>> (32 - s)))

/-- Bitwise complement of a 32-bit word. -/
def not32 (x : Nat) : Nat := w32 x ^^^ 0xFFFFFFFF

/-- Per-round shift amounts. -/
def shifts : List Nat :=
  [7, 12, 17, 22, 7, 12, 17, 22, 7, 12, 17, 22, 7, 12, 17, 22,
   5, 9, 14, 20, 5, 9, 14, 20, 5, 9, 14, 20, 5, 9, 14, 20,
   4, 11, 16, 23, 4, 11, 16, 23, 4, 11, 16, 23, 4, 11, 16, 23,
   6, 10, 15, 21, 6, 10, 15, 21, 6, 10, 15, 21, 6, 10, 15, 21]

/-- The sine-derived constants `floor(2^32 * abs(sin(i + 1)))`. -/
def K : List Nat :=
  [0xd76aa478, 0xe8c7b756, 0x242070db, 0xc1bdceee,
   0xf57c0faf, 0x4787c62a, 0xa8304613, 0xfd469501,
   0x698098d8, 0x8b44f7af, 0xffff5bb1, 0x895cd7be,
   0x6b901122, 0xfd987193, 0xa679438e, 0x49b40821,
   0xf61e2562, 0xc040b340, 0x265e5a51, 0xe9b6c7aa,
   0xd62f105d, 0x02441453, 0xd8a1e681, 0xe7d3fbc8,
   0x21e1cde6, 0xc33707d6, 0xf4d50d87, 0x455a14ed,
   0xa9e3e905, 0xfcefa3f8, 0x676f02d9, 0x8d2a4c8a,
   0xfffa3942, 0x8771f681, 0x6d9d6122, 0xfde5380c,
   0xa4beea44, 0x4bdecfa9, 0xf6bb4b60, 0xbebfbc70,
   0x289b7ec6, 0xeaa127fa, 0xd4ef3085, 0x04881d05,
   0xd9d4d039, 0xe6db99e5, 0x1fa27cf8, 0xc4ac5665,
   0xf4292244, 0x432aff97, 0xab9423a7, 0xfc93a039,
   0x655b59c3, 0x8f0ccc92, 0xffeff47d, 0x85845dd1,
   0x6fa87e4f, 0xfe2ce6e0, 0xa3014314, 0x4e0811a1,
   0xf7537e82, 0xbd3af235, 0x2ad7d2bb, 0xeb86d391]

/-- The four chaining words `a, b, c, d`. -/
structure State where
  a : Nat
  b : Nat
  c : Nat
  d : Nat
deriving DecidableEq, Repr

/-- Initial chaining value. -/
def init : State := ⟨0x67452301, 0xefcdab89, 0x98badcfe, 0x10325476⟩

/-- Little-endian 32-bit word `i` of a 64-byte block. -/
def word (block : List Nat) (i : Nat) : Nat :=
  block.getD (4 * i) 0 + 256 * block.getD (4 * i + 1) 0
    + 65536 * block.getD (4 * i + 2) 0 + 16777216 * block.getD (4 * i + 3) 0

/-- One of the 64 steps of the compression function. -/
def step (block : List Nat) (st : State) (i : Nat) : State :=
  let f :=
    if i < 16 then (st.b &&& st.c) ||| (not32 st.b &&& st.d)
    else if i < 32 then (st.d &&& st.b) ||| (not32 st.d &&& st.c)
    else if i < 48 then st.b ^^^ st.c ^^^ st.d
    else st.c ^^^ (st.b ||| not32 st.d)
  let g :=
    if i < 16 then i
    else if i < 32 then (5 * i + 1) % 16
    else if i < 48 then (3 * i + 5) % 16
    else (7 * i) % 16
  let t := w32 (f + st.a + K.getD i 0 + word block g)
  ⟨st.d, w32 (st.b + rotl t (shifts.getD i 0)), st.b, st.c⟩

/-- The compression function on one 64-byte block. -/
def block (st : State) (blk : List Nat) : State :=
  let r := (List.range 64).foldl (step blk) st
  ⟨w32 (st.a + r.a), w32 (st.b + r.b), w32 (st.c + r.c), w32 (st.d + r.d)⟩

/-- The `n` low bytes of `x`, least significant first. -/
def leBytes : Nat → Nat → List Nat
  | 0, _ => []
  | n + 1, x => x % 256 :: leBytes n (x / 256)

/-- Message padding: a `0x80` byte, zeros up to 56 modulo 64, then the bit
length as a 64-bit little-endian integer. -/
def pad (msg : List Nat) : List Nat :=
  msg ++ 0x80 :: List.replicate ((119 - msg.length % 64) % 64) 0
    ++ leBytes 8 (8 * msg.length % 18446744073709551616)

/-- Fold the compression function over the first `n` 64-byte blocks. -/
def blocks : Nat → State → List Nat → State
  | 0, st, _ => st
  | n + 1, st, data => blocks n (block st (data.take 64)) (data.drop 64)

/-- `md5.Sum(data)`: the 16-byte digest. -/
def Sum (data : List Nat) : List Nat :=
  let p := pad data
  let st := blocks (p.length / 64) init p
  leBytes 4 st.a ++ leBytes 4 st.b ++ leBytes 4 st.c ++ leBytes 4 st.d

end md5

namespace hex

/-- The lowercase hexadecimal digit table `hextable`. -/
def hextable : List Nat := str "0123456789abcdef"

/-- `hex.EncodeToString(src)`: two lowercase hexadecimal digits per byte. -/
def EncodeToString : List Nat → GoString
  | [] => []
  | v :: rest => hextable.getD (v / 16) 0 :: hextable.getD (v % 16) 0 :: EncodeToString rest

/-- Whether `c` is one of the characters `0`-`9`, `a`-`f`. -/
def isLowerHex (c : Nat) : Bool :=
  (decide (0x30 ≤ c) && decide (c ≤ 0x39)) || (decide (0x61 ≤ c) && decide (c ≤ 0x66))

end hex

/-! ## `unicode/utf8` and `encoding/json`

Runes are natural numbers.  `DecodeRune` and `DecodeLastRune` are the two
decoders of `unicode/utf8`, from the start and from the end of a string.

`json.Unmarshal` is used by the package with a `*string` target only.  It
returns a nil error exactly when the input is one JSON string literal or the
literal `null`, surrounded by optional white space: any other input is either
malformed (a syntax error) or a well-formed value of another kind (a type
error). -/

namespace utf8

/-- The replacement rune `utf8.RuneError` (U+FFFD). -/
def RuneError : Nat := 0xFFFD

/-- Whether `b` is a continuation byte, `0x80..0xBF`. -/
def isCont (b : Nat) : Bool := decide (0x80 ≤ b) && decide (b ≤ 0xBF)

/-- `utf8.DecodeRune(p)`: the first rune of `p` and its width in bytes; an
invalid or truncated encoding gives `(RuneError, 1)`, empty input
`(RuneError, 0)`. -/
def DecodeRune (p : List Nat) : Nat × Nat :=
  match p with
  | [] => (RuneError, 0)
  | p0 :: rest =>
    if p0 < 0x80 then (p0, 1)
    else if p0 < 0xC2 then (RuneError, 1)
    else if p0 < 0xE0 then
      match rest with
      | b1 :: _ =>
        if isCont b1 then (p0 % 32 * 64 + b1 % 64, 2) else (RuneError, 1)
      | _ => (RuneError, 1)
    else if p0 < 0xF0 then
      match rest with
      | b1 :: b2 :: _ =>
        if decide ((if p0 = 0xE0 then 0xA0 else 0x80) ≤ b1)
            && decide (b1 ≤ (if p0 = 0xED then 0x9F else 0xBF)) && isCont b2
        then (p0 % 16 * 4096 + b1 % 64 * 64 + b2 % 64, 3) else (RuneError, 1)
      | _ => (RuneError, 1)
    else if p0 < 0xF5 then
      match rest with
      | b1 :: b2 :: b3 :: _ =>
        if decide ((if p0 = 0xF0 then 0x90 else 0x80) ≤ b1)
            && decide (b1 ≤ (if p0 = 0xF4 then 0x8F else 0xBF)) && isCont b2 && isCont b3
        then (p0 % 8 * 262144 + b1 % 64 * 4096 + b2 % 64 * 64 + b3 % 64, 4)
        else (RuneError, 1)
      | _ => (RuneError, 1)
    else (RuneError, 1)

/-- `utf8.ValidRune(r)`: a Unicode scalar value, at most `MaxRune` and not a
surrogate. -/
def ValidRune (r : Nat) : Bool :=
  decide (r < 0xD800) || (decide (0xE000 ≤ r) && decide (r ≤ 0x10FFFF))

/-- `utf8.AppendRune`: the UTF-8 encoding of `r`; a surrogate or a value above
`MaxRune` is encoded as `RuneError`. -/
def AppendRune (r : Nat) : List Nat :=
  if ValidRune r then utf8EncodeRune r else utf8EncodeRune RuneError

/-- `utf8.RuneStart(b)`: `b` is not a continuation byte. -/
def RuneStart (b : Nat) : Bool := !isCont b

/-- The end test of `DecodeLastRuneInString`: the rune decoded from the
bytes `s[start:end]`, kept when it ends at `end`. -/
def lastRuneAt (seg : List Nat) : Nat × Nat :=
  let d := DecodeRune seg
  if d.2 = seg.length then d else (RuneError, 1)

/-- `utf8.DecodeLastRuneInString(p)`: the last rune of `p` and its width.  The
bytes are looked at from the end: the library steps back over at most three
bytes to the nearest one that starts a rune and decodes from there. -/
def DecodeLastRune (p : List Nat) : Nat × Nat :=
  match p.reverse with
  | [] => (RuneError, 0)
  | c0 :: before =>
    if c0 < 0x80 then (c0, 1)
    else
      match before with
      | [] => (RuneError, 1)
      | c1 :: before1 =>
        if RuneStart c1 then lastRuneAt [c1, c0]
        else
          match before1 with
          | [] => (RuneError, 1)
          | c2 :: before2 =>
            if RuneStart c2 then lastRuneAt [c2, c1, c0]
            else
              match before2 with
              | [] => (RuneError, 1)
              | c3 :: _ =>
                if RuneStart c3 then lastRuneAt [c3, c2, c1, c0] else (RuneError, 1)

/-- `DecodeRune` after a lead byte `p0` of a two-byte rune. -/
def decodeTail2 (p0 : Nat) (rest : List Nat) : Nat × Nat :=
  match rest with
  | b1 :: _ => if isCont b1 then (p0 % 32 * 64 + b1 % 64, 2) else (RuneError, 1)
  | _ => (RuneError, 1)

/-- `DecodeRune` after a lead byte `p0` of a three-byte rune. -/
def decodeTail3 (p0 : Nat) (rest : List Nat) : Nat × Nat :=
  match rest with
  | b1 :: b2 :: _ =>
    if decide ((if p0 = 0xE0 then 0xA0 else 0x80) ≤ b1)
        && decide (b1 ≤ (if p0 = 0xED then 0x9F else 0xBF)) && isCont b2
    then (p0 % 16 * 4096 + b1 % 64 * 64 + b2 % 64, 3) else (RuneError, 1)
  | _ => (RuneError, 1)

/-- `DecodeRune` after a lead byte `p0` of a four-byte rune. -/
def decodeTail4 (p0 : Nat) (rest : List Nat) : Nat × Nat :=
  match rest with
  | b1 :: b2 :: b3 :: _ =>
    if decide ((if p0 = 0xF0 then 0x90 else 0x80) ≤ b1)
        && decide (b1 ≤ (if p0 = 0xF4 then 0x8F else 0xBF)) && isCont b2 && isCont b3
    then (p0 % 8 * 262144 + b1 % 64 * 4096 + b2 % 64 * 64 + b3 % 64, 4)
    else (RuneError, 1)
  | _ => (RuneError, 1)

end utf8

namespace json

/-- The scanner's `isSpace`: space, tab, carriage return, line feed. -/
def isSpace (c : Nat) : Bool := c == 0x20 || c == 0x09 || c == 0x0D || c == 0x0A

/-- Value of a hexadecimal digit, if `c` is one. -/
def hexDigit (c : Nat) : Option Nat :=
  if 0x30 ≤ c ∧ c ≤ 0x39 then some (c - 0x30)
  else if 0x61 ≤ c ∧ c ≤ 0x66 then some (c - 0x61 + 10)
  else if 0x41 ≤ c ∧ c ≤ 0x46 then some (c - 0x41 + 10)
  else none

/-- `getu4(s)`: the code unit of a leading `\uXXXX` escape. -/
def getu4 (s : List Nat) : Option Nat :=
  match s with
  | 0x5C :: 0x75 :: h1 :: h2 :: h3 :: h4 :: _ =>
    match hexDigit h1, hexDigit h2, hexDigit h3, hexDigit h4 with
    | some a, some b, some c, some d => some (a * 4096 + b * 256 + c * 16 + d)
    | _, _, _, _ => none
  | _ => none

/-- The scanner inside a string literal, after the opening quote: the raw
bytes up to the closing quote and the input that follows it.  Control bytes
below `0x20`, an unknown escape and a missing closing quote are syntax
errors. -/
def scanString : List Nat → Option (List Nat × List Nat)
  | [] => none
  | c :: rest =>
    if c = 0x22 then some ([], rest)
    else if c = 0x5C then
      match rest with
      | [] => none
      | e :: rest1 =>
        if e = 0x75 then
          match rest1 with
          | h1 :: h2 :: h3 :: h4 :: rest2 =>
            if (hexDigit h1).isSome && (hexDigit h2).isSome && (hexDigit h3).isSome
                && (hexDigit h4).isSome then
              (scanString rest2).map fun r => (c :: e :: h1 :: h2 :: h3 :: h4 :: r.1, r.2)
            else none
          | _ => none
        else if e = 0x62 ∨ e = 0x66 ∨ e = 0x6E ∨ e = 0x72 ∨ e = 0x74 ∨ e = 0x5C ∨ e = 0x2F
            ∨ e = 0x22 then
          (scanString rest1).map fun r => (c :: e :: r.1, r.2)
        else none
    else if c < 0x20 then none
    else (scanString rest).map fun r => (c :: r.1, r.2)

/-- Whether `r` is a UTF-16 surrogate code unit. -/
def isSurrogate (r : Nat) : Bool := decide (0xD800 ≤ r) && decide (r < 0xE000)

/-- `unquoteBytes` on the raw bytes between the quotes: escapes are
replaced, a surrogate pair is combined, a lone surrogate and every byte that
is not well-formed UTF-8 become U+FFFD.  The first argument bounds the number
of iterations; the length of the input is enough. -/
def unquote : Nat → List Nat → Option GoString
  | 0, s => if s = [] then some [] else none
  | fuel + 1, s =>
    match s with
    | [] => some []
    | c :: rest =>
      if c = 0x5C then
        match rest with
        | [] => none
        | e :: rest1 =>
          if e = 0x22 ∨ e = 0x5C ∨ e = 0x2F ∨ e = 0x27 then (unquote fuel rest1).map (e :: ·)
          else if e = 0x62 then (unquote fuel rest1).map (0x08 :: ·)
          else if e = 0x66 then (unquote fuel rest1).map (0x0C :: ·)
          else if e = 0x6E then (unquote fuel rest1).map (0x0A :: ·)
          else if e = 0x72 then (unquote fuel rest1).map (0x0D :: ·)
          else if e = 0x74 then (unquote fuel rest1).map (0x09 :: ·)
          else if e = 0x75 then
            match getu4 s with
            | none => none
            | some rr =>
              if isSurrogate rr then
                match getu4 (s.drop 6) with
                | some rr1 =>
                  if rr < 0xDC00 ∧ 0xDC00 ≤ rr1 ∧ rr1 < 0xE000 then
                    (unquote fuel (s.drop 12)).map
                      (utf8EncodeRune ((rr - 0xD800) * 1024 + (rr1 - 0xDC00) + 0x10000) ++ ·)
                  else (unquote fuel (s.drop 6)).map (utf8EncodeRune utf8.RuneError ++ ·)
                | none => (unquote fuel (s.drop 6)).map (utf8EncodeRune utf8.RuneError ++ ·)
              else (unquote fuel (s.drop 6)).map (utf8EncodeRune rr ++ ·)
          else none
      else if c = 0x22 ∨ c < 0x20 then none
      else if c < 0x80 then (unquote fuel rest).map (c :: ·)
      else
        let d := utf8.DecodeRune s
        (unquote fuel (s.drop d.2)).map (utf8EncodeRune d.1 ++ ·)

/-- Whether every byte of `s` is JSON white space. -/
def allSpace (s : List Nat) : Bool := s.all isSpace

/-- The content of `data` when it is one JSON string literal, surrounded by
optional white space; `none` for any other input. -/
def stringValue (data : List Nat) : Option GoString :=
  match data.dropWhile isSpace with
  | 0x22 :: rest =>
    match scanString rest with
    | some (raw, tail) => if allSpace tail then unquote raw.length raw else none
    | none => none
  | _ => none

/-- Whether `data` is the literal `null`, surrounded by optional white
space. -/
def isNull (data : List Nat) : Bool :=
  match data.dropWhile isSpace with
  | 0x6E :: 0x75 :: 0x6C :: 0x6C :: tail => allSpace tail
  | _ => false

/-- `json.Unmarshal(data, &v)` for a string variable `v` holding `v0`:
`none` when the returned error is non-nil, otherwise the content of `v`
afterwards.  A string literal stores its unquoted content; `null` leaves `v`
as it was; everything else is an error. -/
def Unmarshal (data : List Nat) (v0 : GoString) : Option GoString :=
  match stringValue data with
  | some t => some t
  | none => if isNull data then some v0 else none

/-- A byte that stands for itself inside a JSON string literal: printable
ASCII other than the quote and the backslash. -/
def plain (c : Nat) : Bool :=
  decide (0x20 ≤ c) && decide (c < 0x80) && decide (c ≠ 0x22) && decide (c ≠ 0x5C)


end json

/-! ## Standard-library text operations taken as parameters -/

/-- The text operations of the Go standard library that `NewEmail` calls.
They are not part of the package; the package functions take them as a
parameter.  `goLib` below fixes `TrimSpace` and `ToLower` to the definitions
of package `strings` and leaves address validation open; `goStd` also fixes
address validation. -/
structure Stdlib where
  /-- `strings.TrimSpace`. -/
  TrimSpace : GoString → GoString
  /-- `strings.ToLower`. -/
  ToLower : GoString → GoString
  /-- `mail.ParseAddress(s)`: `true` when the returned error is nil.  The
  parsed address itself is discarded by the package. -/
  ParseAddress : GoString → Bool

/-! ## Values and errors -/

/-- A value of type `interface{}`, by dynamic type. -/
inductive GoValue where
  /-- The nil interface value. -/
  | nil
  /-- Dynamic type `string`. -/
  | string (s : GoString)
  /-- Dynamic type `[]byte`. -/
  | bytes (b : List Nat)
  /-- Any other dynamic type, with its type name and its `%v` rendering,
  such as `other "int" "123"`. -/
  | other (goType : String) (v : String)
deriving DecidableEq, Repr

/-- The error values the package returns. -/
inductive GoError where
  /-- The package-level sentinel `Err_FailedToParseEmail`, created once. -/
  | Err_FailedToParseEmail
  /-- A fresh error made by `fmt.Errorf(format, value)`. -/
  | Errorf (format : String) (value : GoValue)
deriving DecidableEq, Repr

/-! ## The `Email` type -/

/-- The struct `Email`. -/
structure Email where
  email : GoString
  key : GoString
deriving DecidableEq, Repr

namespace Email

/-- The zero value `Email{}`. -/
def zero : Email := { email := [], key := [] }

/-- Method `init`: sets `key` to the hexadecimal MD5 digest of `email`. -/
def init (e : Email) : Email :=
  let hash := md5.Sum e.email
  { e with key := hex.EncodeToString hash }

end Email

/-- Function `NewEmail`: the returned `Email` and error. -/
def NewEmail (env : Stdlib) (email : GoString) : Email × Option GoError :=
  let email := env.ToLower (env.TrimSpace email)
  if env.ParseAddress email = false then (Email.zero, some GoError.Err_FailedToParseEmail)
  else
    let e : Email := { email := email, key := [] }
    (e.init, none)

namespace Email

/-- Method `UnmarshalJSON` (pointer receiver): the receiver afterwards and
the returned error. -/
def UnmarshalJSON (env : Stdlib) (e : Email) (data : List Nat) : Email × Option GoError :=
  match json.Unmarshal data [] with
  | none => (e, some GoError.Err_FailedToParseEmail)
  | some e_string =>
    match NewEmail env e_string with
    | (_, some _) => (e, some GoError.Err_FailedToParseEmail)
    | (email, none) => (email, none)

/-- Method `MarshalJSON`. -/
def MarshalJSON (e : Email) : List Nat × Option GoError :=
  (str "\"" ++ e.email ++ str "\"", none)

/-- Method `String`. -/
def String (e : Email) : GoString := e.key

/-- Method `Key`. -/
def Key (e : Email) : GoString := e.key

/-- Method `Equal`. -/
def Equal (e other : Email) : Bool := e.key == other.key

/-- Method `IsEmpty`. -/
def IsEmpty (e : Email) : Bool := e.email == []

/-- Method `Scan` (pointer receiver): the receiver afterwards and the
returned error. -/
def Scan (env : Stdlib) (e : Email) (value : GoValue) : Email × Option GoError :=
  match value with
  | GoValue.nil => (Email.zero, none)
  | GoValue.string s =>
    match NewEmail env s with
    | (_, some err) => (e, some err)
    | (email, none) => (email, none)
  | GoValue.bytes val =>
    match NewEmail env val with
    | (_, some err) => (e, some err)
    | (email, none) => (email, none)
  | GoValue.other t v =>
    (e, some (GoError.Errorf "failed to scan email: %v" (GoValue.other t v)))

/-- Method `Value`. -/
def Value (e : Email) : GoValue × Option GoError :=
  if e.IsEmpty then (GoValue.nil, none)
  else (GoValue.string e.email, none)

end Email

/-! ## `unicode` and `strings`

`strings.TrimSpace` and `strings.ToLower` as the library defines them, on
byte strings that need not be valid UTF-8.  Both have a fast path for ASCII
and go through the runes of the string otherwise: `TrimSpace` removes the
runes accepted by `unicode.IsSpace` from both ends, `ToLower` maps every rune
through `unicode.ToLower` and writes an invalid byte as `RuneError`. -/

namespace unicode

/-- `unicode.IsSpace(r)`: the Latin-1 spaces, and above Latin-1 the runes of
the table `White_Space`. -/
def IsSpace (r : Nat) : Bool :=
  if r ≤ 0xFF then
    r == 0x09 || r == 0x0A || r == 0x0B || r == 0x0C || r == 0x0D || r == 0x20
      || r == 0x85 || r == 0xA0
  else
    r == 0x1680 || (decide (0x2000 ≤ r) && decide (r ≤ 0x200A))
      || (decide (0x2028 ≤ r) && decide (r ≤ 0x2029)) || r == 0x202F || r == 0x205F
      || r == 0x3000

/-- How a case range moves its runes to lower case: by adding or subtracting
a constant, or, in a range of alternating upper and lower case letters
(`UpperLower`), by moving an upper case letter to its successor. -/
inductive Delta where
  | add (d : Nat)
  | sub (d : Nat)
  | upperLower
deriving DecidableEq

/-- The lower-case column of an entry of `unicode.CaseRanges`: the runes
`lo..hi` and their way to lower case. -/
structure CaseRange where
  lo : Nat
  hi : Nat
  lower : Delta
deriving DecidableEq

/-- The lower case of a rune of the range. -/
def CaseRange.toLower (cr : CaseRange) (r : Nat) : Nat :=
  match cr.lower with
  | Delta.add d => r + d
  | Delta.sub d => r - d
  | Delta.upperLower => cr.lo + ((r - cr.lo) / 2 * 2 + 1)

/-- The ranges of `unicode.CaseRanges` whose runes are not their own lower
case: the simple lower-case mappings of the Unicode Character Database
(version 15.0.0) for the runes above ASCII. -/
def CaseRanges : List CaseRange :=
  [CaseRange.mk 0x00C0 0x00D6 (Delta.add 32), CaseRange.mk 0x00D8 0x00DE (Delta.add 32),
   CaseRange.mk 0x0100 0x012F Delta.upperLower, CaseRange.mk 0x0130 0x0130 (Delta.sub 199),
   CaseRange.mk 0x0132 0x0137 Delta.upperLower, CaseRange.mk 0x0139 0x0148 Delta.upperLower,
   CaseRange.mk 0x014A 0x0177 Delta.upperLower, CaseRange.mk 0x0178 0x0178 (Delta.sub 121),
   CaseRange.mk 0x0179 0x017E Delta.upperLower, CaseRange.mk 0x0181 0x0181 (Delta.add 210),
   CaseRange.mk 0x0182 0x0185 Delta.upperLower, CaseRange.mk 0x0186 0x0186 (Delta.add 206),
   CaseRange.mk 0x0187 0x0187 (Delta.add 1), CaseRange.mk 0x0189 0x018A (Delta.add 205),
   CaseRange.mk 0x018B 0x018B (Delta.add 1), CaseRange.mk 0x018E 0x018E (Delta.add 79),
   CaseRange.mk 0x018F 0x018F (Delta.add 202), CaseRange.mk 0x0190 0x0190 (Delta.add 203),
   CaseRange.mk 0x0191 0x0191 (Delta.add 1), CaseRange.mk 0x0193 0x0193 (Delta.add 205),
   CaseRange.mk 0x0194 0x0194 (Delta.add 207), CaseRange.mk 0x0196 0x0196 (Delta.add 211),
   CaseRange.mk 0x0197 0x0197 (Delta.add 209), CaseRange.mk 0x0198 0x0198 (Delta.add 1),
   CaseRange.mk 0x019C 0x019C (Delta.add 211), CaseRange.mk 0x019D 0x019D (Delta.add 213),
   CaseRange.mk 0x019F 0x019F (Delta.add 214), CaseRange.mk 0x01A0 0x01A5 Delta.upperLower,
   CaseRange.mk 0x01A6 0x01A6 (Delta.add 218), CaseRange.mk 0x01A7 0x01A7 (Delta.add 1),
   CaseRange.mk 0x01A9 0x01A9 (Delta.add 218), CaseRange.mk 0x01AC 0x01AC (Delta.add 1),
   CaseRange.mk 0x01AE 0x01AE (Delta.add 218), CaseRange.mk 0x01AF 0x01AF (Delta.add 1),
   CaseRange.mk 0x01B1 0x01B2 (Delta.add 217), CaseRange.mk 0x01B3 0x01B6 Delta.upperLower,
   CaseRange.mk 0x01B7 0x01B7 (Delta.add 219), CaseRange.mk 0x01B8 0x01B8 (Delta.add 1),
   CaseRange.mk 0x01BC 0x01BC (Delta.add 1), CaseRange.mk 0x01C4 0x01C4 (Delta.add 2),
   CaseRange.mk 0x01C5 0x01C5 (Delta.add 1), CaseRange.mk 0x01C7 0x01C7 (Delta.add 2),
   CaseRange.mk 0x01C8 0x01C8 (Delta.add 1), CaseRange.mk 0x01CA 0x01CA (Delta.add 2),
   CaseRange.mk 0x01CB 0x01DC Delta.upperLower, CaseRange.mk 0x01DE 0x01EF Delta.upperLower,
   CaseRange.mk 0x01F1 0x01F1 (Delta.add 2), CaseRange.mk 0x01F2 0x01F5 Delta.upperLower,
   CaseRange.mk 0x01F6 0x01F6 (Delta.sub 97), CaseRange.mk 0x01F7 0x01F7 (Delta.sub 56),
   CaseRange.mk 0x01F8 0x021F Delta.upperLower, CaseRange.mk 0x0220 0x0220 (Delta.sub 130),
   CaseRange.mk 0x0222 0x0233 Delta.upperLower, CaseRange.mk 0x023A 0x023A (Delta.add 10795),
   CaseRange.mk 0x023B 0x023B (Delta.add 1), CaseRange.mk 0x023D 0x023D (Delta.sub 163),
   CaseRange.mk 0x023E 0x023E (Delta.add 10792), CaseRange.mk 0x0241 0x0241 (Delta.add 1),
   CaseRange.mk 0x0243 0x0243 (Delta.sub 195), CaseRange.mk 0x0244 0x0244 (Delta.add 69),
   CaseRange.mk 0x0245 0x0245 (Delta.add 71), CaseRange.mk 0x0246 0x024F Delta.upperLower,
   CaseRange.mk 0x0370 0x0373 Delta.upperLower, CaseRange.mk 0x0376 0x0376 (Delta.add 1),
   CaseRange.mk 0x037F 0x037F (Delta.add 116), CaseRange.mk 0x0386 0x0386 (Delta.add 38),
   CaseRange.mk 0x0388 0x038A (Delta.add 37), CaseRange.mk 0x038C 0x038C (Delta.add 64),
   CaseRange.mk 0x038E 0x038F (Delta.add 63), CaseRange.mk 0x0391 0x03A1 (Delta.add 32),
   CaseRange.mk 0x03A3 0x03AB (Delta.add 32), CaseRange.mk 0x03CF 0x03CF (Delta.add 8),
   CaseRange.mk 0x03D8 0x03EF Delta.upperLower, CaseRange.mk 0x03F4 0x03F4 (Delta.sub 60),
   CaseRange.mk 0x03F7 0x03F7 (Delta.add 1), CaseRange.mk 0x03F9 0x03F9 (Delta.sub 7),
   CaseRange.mk 0x03FA 0x03FA (Delta.add 1), CaseRange.mk 0x03FD 0x03FF (Delta.sub 130),
   CaseRange.mk 0x0400 0x040F (Delta.add 80), CaseRange.mk 0x0410 0x042F (Delta.add 32),
   CaseRange.mk 0x0460 0x0481 Delta.upperLower, CaseRange.mk 0x048A 0x04BF Delta.upperLower,
   CaseRange.mk 0x04C0 0x04C0 (Delta.add 15), CaseRange.mk 0x04C1 0x04CE Delta.upperLower,
   CaseRange.mk 0x04D0 0x052F Delta.upperLower, CaseRange.mk 0x0531 0x0556 (Delta.add 48),
   CaseRange.mk 0x10A0 0x10C5 (Delta.add 7264), CaseRange.mk 0x10C7 0x10C7 (Delta.add 7264),
   CaseRange.mk 0x10CD 0x10CD (Delta.add 7264), CaseRange.mk 0x13A0 0x13EF (Delta.add 38864),
   CaseRange.mk 0x13F0 0x13F5 (Delta.add 8), CaseRange.mk 0x1C90 0x1CBA (Delta.sub 3008),
   CaseRange.mk 0x1CBD 0x1CBF (Delta.sub 3008), CaseRange.mk 0x1E00 0x1E95 Delta.upperLower,
   CaseRange.mk 0x1E9E 0x1E9E (Delta.sub 7615), CaseRange.mk 0x1EA0 0x1EFF Delta.upperLower,
   CaseRange.mk 0x1F08 0x1F0F (Delta.sub 8), CaseRange.mk 0x1F18 0x1F1D (Delta.sub 8),
   CaseRange.mk 0x1F28 0x1F2F (Delta.sub 8), CaseRange.mk 0x1F38 0x1F3F (Delta.sub 8),
   CaseRange.mk 0x1F48 0x1F4D (Delta.sub 8), CaseRange.mk 0x1F59 0x1F59 (Delta.sub 8),
   CaseRange.mk 0x1F5B 0x1F5B (Delta.sub 8), CaseRange.mk 0x1F5D 0x1F5D (Delta.sub 8),
   CaseRange.mk 0x1F5F 0x1F5F (Delta.sub 8), CaseRange.mk 0x1F68 0x1F6F (Delta.sub 8),
   CaseRange.mk 0x1F88 0x1F8F (Delta.sub 8), CaseRange.mk 0x1F98 0x1F9F (Delta.sub 8),
   CaseRange.mk 0x1FA8 0x1FAF (Delta.sub 8), CaseRange.mk 0x1FB8 0x1FB9 (Delta.sub 8),
   CaseRange.mk 0x1FBA 0x1FBB (Delta.sub 74), CaseRange.mk 0x1FBC 0x1FBC (Delta.sub 9),
   CaseRange.mk 0x1FC8 0x1FCB (Delta.sub 86), CaseRange.mk 0x1FCC 0x1FCC (Delta.sub 9),
   CaseRange.mk 0x1FD8 0x1FD9 (Delta.sub 8), CaseRange.mk 0x1FDA 0x1FDB (Delta.sub 100),
   CaseRange.mk 0x1FE8 0x1FE9 (Delta.sub 8), CaseRange.mk 0x1FEA 0x1FEB (Delta.sub 112),
   CaseRange.mk 0x1FEC 0x1FEC (Delta.sub 7), CaseRange.mk 0x1FF8 0x1FF9 (Delta.sub 128),
   CaseRange.mk 0x1FFA 0x1FFB (Delta.sub 126), CaseRange.mk 0x1FFC 0x1FFC (Delta.sub 9),
   CaseRange.mk 0x2126 0x2126 (Delta.sub 7517), CaseRange.mk 0x212A 0x212A (Delta.sub 8383),
   CaseRange.mk 0x212B 0x212B (Delta.sub 8262), CaseRange.mk 0x2132 0x2132 (Delta.add 28),
   CaseRange.mk 0x2160 0x216F (Delta.add 16), CaseRange.mk 0x2183 0x2183 (Delta.add 1),
   CaseRange.mk 0x24B6 0x24CF (Delta.add 26), CaseRange.mk 0x2C00 0x2C2F (Delta.add 48),
   CaseRange.mk 0x2C60 0x2C60 (Delta.add 1), CaseRange.mk 0x2C62 0x2C62 (Delta.sub 10743),
   CaseRange.mk 0x2C63 0x2C63 (Delta.sub 3814), CaseRange.mk 0x2C64 0x2C64 (Delta.sub 10727),
   CaseRange.mk 0x2C67 0x2C6C Delta.upperLower, CaseRange.mk 0x2C6D 0x2C6D (Delta.sub 10780),
   CaseRange.mk 0x2C6E 0x2C6E (Delta.sub 10749), CaseRange.mk 0x2C6F 0x2C6F (Delta.sub 10783),
   CaseRange.mk 0x2C70 0x2C70 (Delta.sub 10782), CaseRange.mk 0x2C72 0x2C72 (Delta.add 1),
   CaseRange.mk 0x2C75 0x2C75 (Delta.add 1), CaseRange.mk 0x2C7E 0x2C7F (Delta.sub 10815),
   CaseRange.mk 0x2C80 0x2CE3 Delta.upperLower, CaseRange.mk 0x2CEB 0x2CEE Delta.upperLower,
   CaseRange.mk 0x2CF2 0x2CF2 (Delta.add 1), CaseRange.mk 0xA640 0xA66D Delta.upperLower,
   CaseRange.mk 0xA680 0xA69B Delta.upperLower, CaseRange.mk 0xA722 0xA72F Delta.upperLower,
   CaseRange.mk 0xA732 0xA76F Delta.upperLower, CaseRange.mk 0xA779 0xA77C Delta.upperLower,
   CaseRange.mk 0xA77D 0xA77D (Delta.sub 35332), CaseRange.mk 0xA77E 0xA787 Delta.upperLower,
   CaseRange.mk 0xA78B 0xA78B (Delta.add 1), CaseRange.mk 0xA78D 0xA78D (Delta.sub 42280),
   CaseRange.mk 0xA790 0xA793 Delta.upperLower, CaseRange.mk 0xA796 0xA7A9 Delta.upperLower,
   CaseRange.mk 0xA7AA 0xA7AA (Delta.sub 42308), CaseRange.mk 0xA7AB 0xA7AB (Delta.sub 42319),
   CaseRange.mk 0xA7AC 0xA7AC (Delta.sub 42315), CaseRange.mk 0xA7AD 0xA7AD (Delta.sub 42305),
   CaseRange.mk 0xA7AE 0xA7AE (Delta.sub 42308), CaseRange.mk 0xA7B0 0xA7B0 (Delta.sub 42258),
   CaseRange.mk 0xA7B1 0xA7B1 (Delta.sub 42282), CaseRange.mk 0xA7B2 0xA7B2 (Delta.sub 42261),
   CaseRange.mk 0xA7B3 0xA7B3 (Delta.add 928), CaseRange.mk 0xA7B4 0xA7C3 Delta.upperLower,
   CaseRange.mk 0xA7C4 0xA7C4 (Delta.sub 48), CaseRange.mk 0xA7C5 0xA7C5 (Delta.sub 42307),
   CaseRange.mk 0xA7C6 0xA7C6 (Delta.sub 35384), CaseRange.mk 0xA7C7 0xA7CA Delta.upperLower,
   CaseRange.mk 0xA7D0 0xA7D0 (Delta.add 1), CaseRange.mk 0xA7D6 0xA7D9 Delta.upperLower,
   CaseRange.mk 0xA7F5 0xA7F5 (Delta.add 1), CaseRange.mk 0xFF21 0xFF3A (Delta.add 32),
   CaseRange.mk 0x10400 0x10427 (Delta.add 40), CaseRange.mk 0x104B0 0x104D3 (Delta.add 40),
   CaseRange.mk 0x10570 0x1057A (Delta.add 39), CaseRange.mk 0x1057C 0x1058A (Delta.add 39),
   CaseRange.mk 0x1058C 0x10592 (Delta.add 39), CaseRange.mk 0x10594 0x10595 (Delta.add 39),
   CaseRange.mk 0x10C80 0x10CB2 (Delta.add 64), CaseRange.mk 0x118A0 0x118BF (Delta.add 32),
   CaseRange.mk 0x16E40 0x16E5F (Delta.add 32), CaseRange.mk 0x1E900 0x1E921 (Delta.add 34)]

/-- The range of the table `t` that holds `r`. -/
def lookup (t : List CaseRange) (r : Nat) : Option CaseRange :=
  t.find? fun cr => decide (cr.lo ≤ r) && decide (r ≤ cr.hi)

/-- `unicode.ToLower(r)` over the table `t`. -/
def toLowerWith (t : List CaseRange) (r : Nat) : Nat :=
  if r ≤ 0x7F then (if 0x41 ≤ r ∧ r ≤ 0x5A then r + 0x20 else r)
  else
    match lookup t r with
    | some cr => cr.toLower r
    | none => r

/-- `unicode.ToLower(r)`. -/
def ToLower (r : Nat) : Nat := toLowerWith CaseRanges r

/-- The first and the last lower-case image of a range, and the step between
images. -/
def CaseRange.image (cr : CaseRange) : Nat × Nat × Nat :=
  match cr.lower with
  | Delta.add d => (cr.lo + d, cr.hi + d, 1)
  | Delta.sub d => (cr.lo - d, cr.hi - d, 1)
  | Delta.upperLower => (cr.lo + 1, cr.lo + ((cr.hi - cr.lo) / 2 * 2 + 1), 2)

/-- No image of `cr` that lies in the range `cr2` is moved by `cr2`. -/
def pairOK (cr cr2 : CaseRange) : Bool :=
  decide (cr.image.2.1 < cr2.lo) || decide (cr2.hi < cr.image.1)
    || (decide (cr2.lower = Delta.upperLower) && decide (cr2.lo ≤ cr.image.1)
        && decide ((cr.image.1 - cr2.lo) % 2 = 1)
        && (decide (cr.image.2.2 = 2) || decide (cr.image.1 = cr.image.2.1)))

/-- The intervals of the runes that `IsSpace` accepts. -/
def spaceIntervals : List (Nat × Nat) :=
  [(0x09, 0x0D), (0x20, 0x20), (0x85, 0x85), (0xA0, 0xA0), (0x1680, 0x1680),
   (0x2000, 0x200A), (0x2028, 0x2029), (0x202F, 0x202F), (0x205F, 0x205F), (0x3000, 0x3000)]

/-- The checks on one range of a table: it is not empty and lies above ASCII;
its images are no ASCII capitals, no spaces and no surrogates, they are at
most `MaxRune`, and no range of the table moves them. -/
def entryOK (t : List CaseRange) (cr : CaseRange) : Bool :=
  decide (cr.lo ≤ cr.hi) && decide (0x80 ≤ cr.lo)
    && (match cr.lower with
        | Delta.sub d => decide (d ≤ cr.lo)
        | _ => true)
    && (decide (cr.image.2.1 < 0x41) || decide (0x5A < cr.image.1))
    && spaceIntervals.all (fun iv => decide (cr.image.2.1 < iv.1) || decide (iv.2 < cr.image.1))
    && (decide (cr.image.2.1 < 0xD800)
        || (decide (0xE000 ≤ cr.image.1) && decide (cr.image.2.1 ≤ 0x10FFFF)))
    && t.all (pairOK cr)

/-- The checks on a table. -/
def tableOK (t : List CaseRange) : Bool := t.all (entryOK t)

end unicode

namespace strings

/-- The table `asciiSpace`: tab, line feed, vertical tab, form feed, carriage
return, space. -/
def asciiSpace (c : Nat) : Bool :=
  c == 0x09 || c == 0x0A || c == 0x0B || c == 0x0C || c == 0x0D || c == 0x20

/-- Lower case of one ASCII byte: `A..Z` move to `a..z`. -/
def lowerByte (c : Nat) : Nat := if 0x41 ≤ c ∧ c ≤ 0x5A then c + 0x20 else c

/-- The loop of `TrimLeftFunc(s, f)`: the string from its first rune that
does not satisfy `f`.  The first argument bounds the number of iterations;
the length of the string is enough. -/
def trimLeftLoop (f : Nat → Bool) : Nat → GoString → GoString
  | 0, _ => []
  | fuel + 1, s =>
    match s with
    | [] => []
    | c :: rest =>
      if f (utf8.DecodeRune (c :: rest)).1 then
        trimLeftLoop f fuel ((c :: rest).drop (utf8.DecodeRune (c :: rest)).2)
      else c :: rest

/-- `strings.TrimLeftFunc(s, f)`. -/
def TrimLeftFunc (s : GoString) (f : Nat → Bool) : GoString := trimLeftLoop f s.length s

/-- The loop of `lastIndexFunc(s, f, false)`: going backwards over the runes
of `s`, the index of the first one that does not satisfy `f`; `none` stands
for `-1`. -/
def lastIndexLoop (f : Nat → Bool) : Nat → GoString → Option Nat
  | 0, _ => none
  | fuel + 1, s =>
    match s with
    | [] => none
    | c :: rest =>
      if f (utf8.DecodeLastRune (c :: rest)).1 then
        lastIndexLoop f fuel
          ((c :: rest).take ((c :: rest).length - (utf8.DecodeLastRune (c :: rest)).2))
      else some ((c :: rest).length - (utf8.DecodeLastRune (c :: rest)).2)

/-- `strings.TrimRightFunc(s, f)`: the string up to the end of its last rune
that does not satisfy `f`. -/
def TrimRightFunc (s : GoString) (f : Nat → Bool) : GoString :=
  match lastIndexLoop f s.length s with
  | some i =>
    if 0x80 ≤ s.getD i 0 then s.take (i + (utf8.DecodeRune (s.drop i)).2)
    else s.take (i + 1)
  | none => []

/-- `strings.TrimFunc(s, f)`. -/
def TrimFunc (s : GoString) (f : Nat → Bool) : GoString :=
  TrimRightFunc (TrimLeftFunc s f) f

/-- The second loop of `TrimSpace`, on the reversed bytes of `s[start:stop]`:
trailing ASCII spaces are dropped; at a byte above ASCII the work is handed to
`TrimRightFunc`. -/
def trimSpaceEnd : GoString → GoString
  | [] => []
  | c :: before =>
    if 0x80 ≤ c then TrimRightFunc (c :: before).reverse unicode.IsSpace
    else if asciiSpace c then trimSpaceEnd before
    else (c :: before).reverse

/-- `strings.TrimSpace(s)`: leading ASCII spaces are dropped; at a byte above
ASCII the work is handed to `TrimFunc`; otherwise the second loop trims the
end. -/
def TrimSpace : GoString → GoString
  | [] => []
  | c :: rest =>
    if 0x80 ≤ c then TrimFunc (c :: rest) unicode.IsSpace
    else if asciiSpace c then TrimSpace rest
    else trimSpaceEnd (c :: rest).reverse

/-- The loop of `strings.Map(mapping, s)`: every rune of `s` is decoded, an
invalid byte as `RuneError`, and the mapped rune is encoded. -/
def mapLoop (mapping : Nat → Nat) : Nat → GoString → GoString
  | 0, _ => []
  | fuel + 1, s =>
    match s with
    | [] => []
    | c :: rest =>
      utf8.AppendRune (mapping (utf8.DecodeRune (c :: rest)).1)
        ++ mapLoop mapping fuel ((c :: rest).drop (utf8.DecodeRune (c :: rest)).2)

/-- `strings.Map(mapping, s)`. -/
def Map (mapping : Nat → Nat) (s : GoString) : GoString := mapLoop mapping s.length s

/-- `strings.ToLower(s)`: an ASCII string is lowered byte by byte, and returned
as it is when it has no capital; any other string goes through
`Map(unicode.ToLower, s)`. -/
def ToLower (s : GoString) : GoString :=
  if s.all (fun c => decide (c < 0x80)) then
    if s.any (fun c => decide (0x41 ≤ c ∧ c ≤ 0x5A)) then s.map lowerByte else s
  else Map unicode.ToLower s

/-- What follows a cut at a rune boundary: nothing, or a byte that starts a
rune. -/
def AtBoundary (t : GoString) : Prop := t = [] ∨ ∃ h tl, t = h :: tl ∧ utf8.RuneStart h = true

end strings

/-! ## `net/mail`

Address validation on the `addr-spec` form `local-part "@" domain` of
RFC 5322, as `net/mail` parses it. -/

namespace mail

/-- `isVchar`: visible ASCII, or a multi-byte rune. -/
def isVchar (r : Nat) : Bool := (decide (0x21 ≤ r) && decide (r ≤ 0x7E)) || decide (0x80 ≤ r)

/-- `isWSP`: space or horizontal tab. -/
def isWSP (r : Nat) : Bool := r == 0x20 || r == 0x09

/-- `isAtext`: an `atext` rune; the period counts when `dot` is set. -/
def isAtext (r : Nat) (dot : Bool) : Bool :=
  if r = 0x2E then dot
  else if r ∈ [0x28, 0x29, 0x3C, 0x3E, 0x5B, 0x5D, 0x3A, 0x3B, 0x40, 0x5C, 0x2C, 0x22] then false
  else isVchar r

/-- `isQtext`: a visible rune other than the backslash and the quote. -/
def isQtext (r : Nat) : Bool := if r = 0x5C ∨ r = 0x22 then false else isVchar r

/-- `skipSpace`: drop leading spaces and tabs. -/
def skipSpace (s : GoString) : GoString := s.dropWhile isWSP

/-- The loop of `consumeAtom`: the longest run of `atext` runes at the start
of `s` and what follows it; `none` on invalid UTF-8. -/
def atomRun (dot : Bool) : Nat → GoString → Option (GoString × GoString)
  | 0, _ => none
  | fuel + 1, s =>
    let d := utf8.DecodeRune s
    if d.2 = 1 ∧ d.1 = utf8.RuneError then none
    else if d.2 = 0 ∨ isAtext d.1 dot = false then some ([], s)
    else (atomRun dot fuel (s.drop d.2)).map fun r => (s.take d.2 ++ r.1, r.2)

/-- Whether `s` contains two consecutive periods. -/
def hasDoubleDot : GoString → Bool
  | a :: b :: rest => (a == 0x2E && b == 0x2E) || hasDoubleDot (b :: rest)
  | _ => false

/-- `consumeAtom(true, false)`: a dot-atom at the start of `s` and the rest
of the input; an empty atom, a leading, trailing or double period is an
error. -/
def consumeAtom (s : GoString) : Option (GoString × GoString) :=
  match atomRun true (s.length + 1) s with
  | none => none
  | some (atom, rest) =>
    if atom = [] then none
    else if atom.head? = some 0x2E then none
    else if hasDoubleDot atom then none
    else if atom.getLast? = some 0x2E then none
    else some (atom, rest)

/-- The loop of `consumeQuotedString`, after the opening quote: the runes of
the quoted string and the input after the closing quote. -/
def quotedRun : Nat → Bool → GoString → Option (List Nat × GoString)
  | 0, _, _ => none
  | fuel + 1, escaped, s =>
    let d := utf8.DecodeRune s
    if d.2 = 0 then none
    else if d.2 = 1 ∧ d.1 = utf8.RuneError then none
    else if escaped then
      if isVchar d.1 = false ∧ isWSP d.1 = false then none
      else (quotedRun fuel false (s.drop d.2)).map fun r => (d.1 :: r.1, r.2)
    else if isQtext d.1 || isWSP d.1 then
      (quotedRun fuel false (s.drop d.2)).map fun r => (d.1 :: r.1, r.2)
    else if d.1 = 0x22 then some ([], s.drop 1)
    else if d.1 = 0x5C then quotedRun fuel true (s.drop d.2)
    else none

/-- `consumeAddrSpec`: an `addr-spec` at the start of `s`, returning the rest
of the input.  The local part is a quoted string or a dot-atom, the domain a
dot-atom; a domain literal in square brackets is not covered and is
refused. -/
def consumeAddrSpec (s : GoString) : Option GoString :=
  let s := skipSpace s
  match s with
  | [] => none
  | c :: rest =>
    let localPart : Option GoString :=
      if c = 0x22 then
        match quotedRun (rest.length + 1) false rest with
        | some (qs, r) => if qs = [] then none else some r
        | none => none
      else (consumeAtom s).map (·.2)
    match localPart with
    | some (0x40 :: afterAt) =>
      match skipSpace afterAt with
      | [] => none
      | 0x5B :: _ => none
      | d :: ds => (consumeAtom (d :: ds)).map (·.2)
    | _ => none

/-- `mail.ParseAddress(s)` succeeds, on the `addr-spec` form: an `addr-spec`
followed by nothing but spaces and tabs.  The other forms the library accepts
(a display name with an angle-bracketed address, a group, comments, a domain
literal) are not covered and are refused; each of them contains one of the
bytes `<`, `:`, `(`, `[`. -/
def ParseAddress (s : GoString) : Bool :=
  match consumeAddrSpec (skipSpace s) with
  | some rest => skipSpace rest == []
  | none => false

end mail

/-- The library with `strings.TrimSpace` and `strings.ToLower`, and with
`ParseAddress` as address validation. -/
def goLib (ParseAddress : GoString → Bool) : Stdlib where
  TrimSpace := strings.TrimSpace
  ToLower := strings.ToLower
  ParseAddress := ParseAddress

/-- The library with `strings.TrimSpace`, `strings.ToLower` and the
`addr-spec` validation `mail.ParseAddress`. -/
def goStd : Stdlib where
  TrimSpace := strings.TrimSpace
  ToLower := strings.ToLower
  ParseAddress := mail.ParseAddress

/-! ## Reachable values -/

/-- The `Email` values reachable through the exposed operations: the zero
value, the result of `NewEmail`, and the receiver after a call of `Scan` or
`UnmarshalJSON` on a reachable receiver, whether the call succeeds or fails. -/
inductive Reachable (env : Stdlib) : Email → Prop where
  | zero : Reachable env Email.zero
  | newEmail (s : GoString) : Reachable env (NewEmail env s).1
  | scan (e : Email) (value : GoValue) :
      Reachable env e → Reachable env (Email.Scan env e value).1
  | unmarshalJSON (e : Email) (data : List Nat) :
      Reachable env e → Reachable env (Email.UnmarshalJSON env e data).1

/-! ## Calls on an `Email` variable -/

/-- A call of one of the exposed methods on a variable of type `Email`. -/
inductive Call where
  | MarshalJSON
  | String
  | Key
  | Equal (other : Email)
  | IsEmpty
  | Value
  | UnmarshalJSON (data : List Nat)
  | Scan (value : GoValue)

/-- The content of the variable after the call.  `UnmarshalJSON` and `Scan`
have a pointer receiver and may assign to it; the other methods have a value
receiver, work on a copy, and leave the variable as it was. -/
def Call.after (env : Stdlib) (e : Email) : Call → Email
  | Call.UnmarshalJSON data => (Email.UnmarshalJSON env e data).1
  | Call.Scan value => (Email.Scan env e value).1
  | _ => e

/-! ## Basic facts about the package functions -/

set_option maxRecDepth 100000

theorem newEmail_of_accepted (env : Stdlib) (s : GoString)
    (h : env.ParseAddress (env.ToLower (env.TrimSpace s)) = true) :
    NewEmail env s =
      (⟨env.ToLower (env.TrimSpace s),
        hex.EncodeToString (md5.Sum (env.ToLower (env.TrimSpace s)))⟩, none) := by
  simp [NewEmail, h, Email.init]

theorem newEmail_of_rejected (env : Stdlib) (s : GoString)
    (h : env.ParseAddress (env.ToLower (env.TrimSpace s)) = false) :
    NewEmail env s = (Email.zero, some GoError.Err_FailedToParseEmail) := by
  simp [NewEmail, h]

theorem newEmail_err_eq_none_iff (env : Stdlib) (s : GoString) :
    (NewEmail env s).2 = none ↔ env.ParseAddress (env.ToLower (env.TrimSpace s)) = true := by
  cases h : env.ParseAddress (env.ToLower (env.TrimSpace s))
  · simp [newEmail_of_rejected env s h]
  · simp [newEmail_of_accepted env s h]

/-! ### UTF-8: widths, and decoding what was encoded -/

namespace utf8

theorem DecodeRune_width_pos (c : Nat) (rest : List Nat) :
    1 ≤ (DecodeRune (c :: rest)).2 := by
  simp only [DecodeRune]
  repeat' split
  all_goals simp

theorem DecodeRune_width_le (s : List Nat) : (DecodeRune s).2 ≤ 4 := by
  unfold DecodeRune
  repeat' split
  all_goals simp

theorem DecodeRune_width_le_length (s : List Nat) : (DecodeRune s).2 ≤ s.length := by
  unfold DecodeRune
  repeat' split
  all_goals simp

theorem DecodeRune_valid (s : List Nat) : ValidRune (DecodeRune s).1 = true := by
  unfold DecodeRune
  repeat' split
  all_goals simp only [ValidRune, RuneError, isCont, Bool.or_eq_true, Bool.and_eq_true,
    decide_eq_true_eq] at *
  all_goals omega


theorem AppendRune_length_pos (r : Nat) : 1 ≤ (AppendRune r).length := by
  unfold AppendRune utf8EncodeRune
  repeat' split
  all_goals simp

/-- Decoding an encoded valid rune gives the rune back. -/
theorem DecodeRune_AppendRune (r : Nat) (h : ValidRune r = true) (rest : List Nat) :
    DecodeRune (AppendRune r ++ rest) = (r, (AppendRune r).length) := by
  have hv := h
  simp only [ValidRune, Bool.or_eq_true, Bool.and_eq_true, decide_eq_true_eq] at hv
  unfold AppendRune
  rw [if_pos h]
  unfold utf8EncodeRune
  split_ifs with h1 h2 h3
  · simp only [DecodeRune, List.cons_append, List.nil_append, if_pos h1, List.length_singleton]
  · have a1 : ¬ (0xC0 + r / 64 < 0x80) := by omega
    have a2 : ¬ (0xC0 + r / 64 < 0xC2) := by omega
    have a3 : 0xC0 + r / 64 < 0xE0 := by omega
    have a4 : isCont (0x80 + r % 64) = true := by
      simp only [isCont, Bool.and_eq_true, decide_eq_true_eq]; omega
    have a5 : (0xC0 + r / 64) % 32 * 64 + (0x80 + r % 64) % 64 = r := by omega
    simp only [DecodeRune, List.cons_append, List.nil_append, if_neg a1, if_neg a2, if_pos a3,
      if_pos a4, a5, List.length_cons, List.length_nil]
  · have a1 : ¬ (0xE0 + r / 4096 < 0x80) := by omega
    have a2 : ¬ (0xE0 + r / 4096 < 0xC2) := by omega
    have a3 : ¬ (0xE0 + r / 4096 < 0xE0) := by omega
    have a4 : 0xE0 + r / 4096 < 0xF0 := by omega
    have a6 : (decide ((if 0xE0 + r / 4096 = 0xE0 then 0xA0 else 0x80) ≤ 0x80 + r / 64 % 64)
        && decide (0x80 + r / 64 % 64 ≤ (if 0xE0 + r / 4096 = 0xED then 0x9F else 0xBF))
        && isCont (0x80 + r % 64)) = true := by
      simp only [isCont, Bool.and_eq_true, decide_eq_true_eq]
      refine ⟨⟨?_, ?_⟩, ?_, ?_⟩
      · split_ifs <;> omega
      · split_ifs <;> omega
      · omega
      · omega
    have a8 : (0xE0 + r / 4096) % 16 * 4096 + (0x80 + r / 64 % 64) % 64 * 64
        + (0x80 + r % 64) % 64 = r := by omega
    simp only [DecodeRune, List.cons_append, List.nil_append, if_neg a1, if_neg a2, if_neg a3,
      if_pos a4, if_pos a6, a8, List.length_cons, List.length_nil]
  · have a1 : ¬ (0xF0 + r / 262144 < 0x80) := by omega
    have a2 : ¬ (0xF0 + r / 262144 < 0xC2) := by omega
    have a3 : ¬ (0xF0 + r / 262144 < 0xE0) := by omega
    have a4 : ¬ (0xF0 + r / 262144 < 0xF0) := by omega
    have a4' : 0xF0 + r / 262144 < 0xF5 := by omega
    have a6 : (decide ((if 0xF0 + r / 262144 = 0xF0 then 0x90 else 0x80) ≤ 0x80 + r / 4096 % 64)
        && decide (0x80 + r / 4096 % 64 ≤ (if 0xF0 + r / 262144 = 0xF4 then 0x8F else 0xBF))
        && isCont (0x80 + r / 64 % 64) && isCont (0x80 + r % 64)) = true := by
      simp only [isCont, Bool.and_eq_true, decide_eq_true_eq]
      refine ⟨⟨⟨?_, ?_⟩, ?_, ?_⟩, ?_, ?_⟩
      · split_ifs <;> omega
      · split_ifs <;> omega
      · omega
      · omega
      · omega
      · omega
    have a8 : (0xF0 + r / 262144) % 8 * 262144 + (0x80 + r / 4096 % 64) % 64 * 4096
        + (0x80 + r / 64 % 64) % 64 * 64 + (0x80 + r % 64) % 64 = r := by omega
    simp only [DecodeRune, List.cons_append, List.nil_append, if_neg a1, if_neg a2, if_neg a3,
      if_neg a4, if_pos a4', if_pos a6, a8, List.length_cons, List.length_nil]


theorem DecodeRune_cons (p0 : Nat) (rest : List Nat) :
    DecodeRune (p0 :: rest)
      = if p0 < 0x80 then (p0, 1)
        else if p0 < 0xC2 then (RuneError, 1)
        else if p0 < 0xE0 then decodeTail2 p0 rest
        else if p0 < 0xF0 then decodeTail3 p0 rest
        else if p0 < 0xF5 then decodeTail4 p0 rest
        else (RuneError, 1) := by
  simp only [DecodeRune, decodeTail2, decodeTail3, decodeTail4]

end utf8

/-! ### UTF-8: a decoded rune and the bytes it was decoded from -/

namespace utf8

/-- A rune decoded from a prefix is the rune decoded from the whole string, or
`RuneError`. -/
theorem DecodeRune_of_append (s t : List Nat) (hs : s ≠ []) :
    (DecodeRune s).1 = (DecodeRune (s ++ t)).1 ∨ (DecodeRune s).1 = RuneError := by
  rcases s with _ | ⟨p0, s⟩
  · exact absurd rfl hs
  rw [List.cons_append, DecodeRune_cons, DecodeRune_cons]
  split_ifs
  · exact Or.inl rfl
  · exact Or.inl rfl
  · rcases s with _ | ⟨b1, s⟩
    · exact Or.inr rfl
    · exact Or.inl rfl
  · rcases s with _ | ⟨b1, _ | ⟨b2, s⟩⟩
    · exact Or.inr rfl
    · exact Or.inr rfl
    · exact Or.inl rfl
  · rcases s with _ | ⟨b1, _ | ⟨b2, _ | ⟨b3, s⟩⟩⟩
    · exact Or.inr rfl
    · exact Or.inr rfl
    · exact Or.inr rfl
    · exact Or.inl rfl
  · exact Or.inl rfl


/-- A complete multi-byte rune is decoded in the same way when more bytes
follow. -/
theorem DecodeRune_append (tok rest : List Nat) (r : Nat)
    (h : DecodeRune tok = (r, tok.length)) (h2 : 2 ≤ tok.length) :
    DecodeRune (tok ++ rest) = (r, tok.length) := by
  rcases tok with _ | ⟨p0, s⟩
  · simp at h2
  rw [List.cons_append, DecodeRune_cons]
  rw [DecodeRune_cons] at h
  split_ifs at h ⊢ with c1 c2 c3 c4 c5
  · simp only [Prod.mk.injEq, List.length_cons] at h h2; omega
  · simp only [Prod.mk.injEq, List.length_cons] at h h2; omega
  · rcases s with _ | ⟨b1, s⟩
    · simp at h2
    · simp only [decodeTail2, List.cons_append] at h ⊢
      split_ifs at h ⊢
      all_goals exact h
  · rcases s with _ | ⟨b1, _ | ⟨b2, s⟩⟩
    · simp at h2
    · simp only [decodeTail3, Prod.mk.injEq, List.length_cons, List.length_nil] at h; omega
    · simp only [decodeTail3, List.cons_append] at h ⊢
      split_ifs at h ⊢
      all_goals exact h
  · rcases s with _ | ⟨b1, _ | ⟨b2, _ | ⟨b3, s⟩⟩⟩
    · simp at h2
    · simp only [decodeTail4, Prod.mk.injEq, List.length_cons, List.length_nil] at h; omega
    · simp only [decodeTail4, Prod.mk.injEq, List.length_cons, List.length_nil] at h; omega
    · simp only [decodeTail4, List.cons_append] at h ⊢
      split_ifs at h ⊢
      all_goals exact h
  · simp only [Prod.mk.injEq, List.length_cons] at h h2; omega

/-- A byte above ASCII that is followed by nothing, or by a byte that starts a
rune, is decoded as `RuneError` of width one. -/
theorem DecodeRune_single (c : Nat) (rest : List Nat) (hc : 0x80 ≤ c)
    (hrest : rest = [] ∨ ∃ h t, rest = h :: t ∧ RuneStart h = true) :
    DecodeRune (c :: rest) = (RuneError, 1) := by
  rw [DecodeRune_cons]
  rcases hrest with rfl | ⟨h, t, rfl, hh⟩
  · split_ifs
    · omega
    all_goals rfl
  · simp only [RuneStart, Bool.not_eq_true'] at hh
    have hh2 := hh
    simp only [isCont, Bool.and_eq_false_iff, decide_eq_false_iff_not] at hh2
    split_ifs
    · omega
    · rfl
    · simp only [decodeTail2, hh]
      rfl
    · rcases t with _ | ⟨b2, t⟩
      · rfl
      · simp only [decodeTail3]
        have : (decide ((if c = 0xE0 then 0xA0 else 0x80) ≤ h)
            && decide (h ≤ (if c = 0xED then 0x9F else 0xBF)) && isCont b2) = false := by
          simp only [Bool.and_eq_false_iff, decide_eq_false_iff_not]
          left
          split_ifs <;> omega
        rw [this]
        rfl
    · rcases t with _ | ⟨b2, _ | ⟨b3, t⟩⟩
      · rfl
      · rfl
      · simp only [decodeTail4]
        have : (decide ((if c = 0xF0 then 0x90 else 0x80) ≤ h)
            && decide (h ≤ (if c = 0xF4 then 0x8F else 0xBF)) && isCont b2 && isCont b3)
            = false := by
          simp only [Bool.and_eq_false_iff, decide_eq_false_iff_not]
          left; left
          split_ifs <;> omega
        rw [this]
        rfl
    · rfl


theorem AppendRune_one (r : Nat) (h : r < 0x80) : AppendRune r = [r] := by
  have hv : ValidRune r = true := by
    simp only [ValidRune, Bool.or_eq_true, Bool.and_eq_true, decide_eq_true_eq]; omega
  simp only [AppendRune, hv, if_true, utf8EncodeRune, if_pos h]

theorem AppendRune_two (r : Nat) (h1 : 0x80 ≤ r) (h2 : r < 0x800) :
    AppendRune r = [0xC0 + r / 64, 0x80 + r % 64] := by
  have hv : ValidRune r = true := by
    simp only [ValidRune, Bool.or_eq_true, Bool.and_eq_true, decide_eq_true_eq]; omega
  have a1 : ¬ r < 0x80 := by omega
  simp only [AppendRune, hv, if_true, utf8EncodeRune, if_neg a1, if_pos h2]

theorem AppendRune_three (r : Nat) (h1 : 0x800 ≤ r) (h2 : r < 0x10000)
    (hv : ValidRune r = true) :
    AppendRune r = [0xE0 + r / 4096, 0x80 + r / 64 % 64, 0x80 + r % 64] := by
  have a1 : ¬ r < 0x80 := by omega
  have a2 : ¬ r < 0x800 := by omega
  simp only [AppendRune, hv, if_true, utf8EncodeRune, if_neg a1, if_neg a2, if_pos h2]

theorem AppendRune_four (r : Nat) (h1 : 0x10000 ≤ r) (hv : ValidRune r = true) :
    AppendRune r
      = [0xF0 + r / 262144, 0x80 + r / 4096 % 64, 0x80 + r / 64 % 64, 0x80 + r % 64] := by
  have a1 : ¬ r < 0x80 := by omega
  have a2 : ¬ r < 0x800 := by omega
  have a3 : ¬ r < 0x10000 := by omega
  simp only [AppendRune, hv, if_true, utf8EncodeRune, if_neg a1, if_neg a2, if_neg a3]

theorem tail3_cond {p0 b1 b2 : Nat}
    (h : (decide ((if p0 = 0xE0 then 0xA0 else 0x80) ≤ b1)
        && decide (b1 ≤ (if p0 = 0xED then 0x9F else 0xBF)) && isCont b2) = true) :
    0x80 ≤ b1 ∧ b1 ≤ 0xBF ∧ (p0 = 0xE0 → 0xA0 ≤ b1) ∧ (p0 = 0xED → b1 ≤ 0x9F)
    ∧ 0x80 ≤ b2 ∧ b2 ≤ 0xBF := by
  simp only [isCont, Bool.and_eq_true, decide_eq_true_eq] at h
  split_ifs at h <;> omega

theorem tail4_cond {p0 b1 b2 b3 : Nat}
    (h : (decide ((if p0 = 0xF0 then 0x90 else 0x80) ≤ b1)
        && decide (b1 ≤ (if p0 = 0xF4 then 0x8F else 0xBF)) && isCont b2 && isCont b3) = true) :
    0x80 ≤ b1 ∧ b1 ≤ 0xBF ∧ (p0 = 0xF0 → 0x90 ≤ b1) ∧ (p0 = 0xF4 → b1 ≤ 0x8F)
    ∧ 0x80 ≤ b2 ∧ b2 ≤ 0xBF ∧ 0x80 ≤ b3 ∧ b3 ≤ 0xBF := by
  simp only [isCont, Bool.and_eq_true, decide_eq_true_eq] at h
  split_ifs at h <;> omega

theorem AppendRune_decoded2 (p0 b1 : Nat) (hp : 0xC2 ≤ p0) (hp2 : p0 < 0xE0)
    (h1 : 0x80 ≤ b1) (h2 : b1 ≤ 0xBF) : AppendRune (p0 % 32 * 64 + b1 % 64) = [p0, b1] := by
  rw [AppendRune_two _ (by omega) (by omega)]
  have e1 : 0xC0 + (p0 % 32 * 64 + b1 % 64) / 64 = p0 := by omega
  have e2 : 0x80 + (p0 % 32 * 64 + b1 % 64) % 64 = b1 := by omega
  rw [e1, e2]

theorem AppendRune_decoded3 (p0 b1 b2 : Nat) (hp : 0xE0 ≤ p0) (hp2 : p0 < 0xF0)
    (h1 : 0x80 ≤ b1) (h2 : b1 ≤ 0xBF) (h3 : p0 = 0xE0 → 0xA0 ≤ b1)
    (h4 : p0 = 0xED → b1 ≤ 0x9F) (h5 : 0x80 ≤ b2) (h6 : b2 ≤ 0xBF) :
    AppendRune (p0 % 16 * 4096 + b1 % 64 * 64 + b2 % 64) = [p0, b1, b2] := by
  have hv : ValidRune (p0 % 16 * 4096 + b1 % 64 * 64 + b2 % 64) = true := by
    simp only [ValidRune, Bool.or_eq_true, Bool.and_eq_true, decide_eq_true_eq]
    omega
  rw [AppendRune_three _ (by omega) (by omega) hv]
  have e1 : 0xE0 + (p0 % 16 * 4096 + b1 % 64 * 64 + b2 % 64) / 4096 = p0 := by omega
  have e2 : 0x80 + (p0 % 16 * 4096 + b1 % 64 * 64 + b2 % 64) / 64 % 64 = b1 := by omega
  have e3 : 0x80 + (p0 % 16 * 4096 + b1 % 64 * 64 + b2 % 64) % 64 = b2 := by omega
  rw [e1, e2, e3]

theorem AppendRune_decoded4 (p0 b1 b2 b3 : Nat) (hp : 0xF0 ≤ p0) (hp2 : p0 < 0xF5)
    (h1 : 0x80 ≤ b1) (h2 : b1 ≤ 0xBF) (h3 : p0 = 0xF0 → 0x90 ≤ b1)
    (h4 : p0 = 0xF4 → b1 ≤ 0x8F) (h5 : 0x80 ≤ b2) (h6 : b2 ≤ 0xBF)
    (h7 : 0x80 ≤ b3) (h8 : b3 ≤ 0xBF) :
    AppendRune (p0 % 8 * 262144 + b1 % 64 * 4096 + b2 % 64 * 64 + b3 % 64)
      = [p0, b1, b2, b3] := by
  have hv : ValidRune (p0 % 8 * 262144 + b1 % 64 * 4096 + b2 % 64 * 64 + b3 % 64) = true := by
    simp only [ValidRune, Bool.or_eq_true, Bool.and_eq_true, decide_eq_true_eq]
    omega
  rw [AppendRune_four _ (by omega) hv]
  have e1 : 0xF0 + (p0 % 8 * 262144 + b1 % 64 * 4096 + b2 % 64 * 64 + b3 % 64) / 262144
      = p0 := by omega
  have e2 : 0x80 + (p0 % 8 * 262144 + b1 % 64 * 4096 + b2 % 64 * 64 + b3 % 64) / 4096 % 64
      = b1 := by omega
  have e3 : 0x80 + (p0 % 8 * 262144 + b1 % 64 * 4096 + b2 % 64 * 64 + b3 % 64) / 64 % 64
      = b2 := by omega
  have e4 : 0x80 + (p0 % 8 * 262144 + b1 % 64 * 4096 + b2 % 64 * 64 + b3 % 64) % 64
      = b3 := by omega
  rw [e1, e2, e3, e4]

/-- The bytes of a decoded rune other than `RuneError` are its encoding. -/
theorem DecodeRune_bytes (s : List Nat) (r w : Nat) (h : DecodeRune s = (r, w))
    (hr : r ≠ RuneError) : s = AppendRune r ++ s.drop w := by
  rcases s with _ | ⟨p0, s⟩
  · simp only [DecodeRune, Prod.mk.injEq] at h
    exact absurd h.1.symm hr
  rw [DecodeRune_cons] at h
  split_ifs at h with c1 c2 c3 c4 c5
  · simp only [Prod.mk.injEq] at h
    obtain ⟨rfl, rfl⟩ := h
    rw [AppendRune_one _ c1]
    rfl
  · simp only [Prod.mk.injEq] at h
    exact absurd h.1.symm hr
  · rcases s with _ | ⟨b1, s⟩
    · simp only [decodeTail2, Prod.mk.injEq] at h
      exact absurd h.1.symm hr
    · simp only [decodeTail2] at h
      by_cases hc : isCont b1 = true
      · rw [if_pos hc] at h
        simp only [Prod.mk.injEq] at h
        obtain ⟨rfl, rfl⟩ := h
        simp only [isCont, Bool.and_eq_true, decide_eq_true_eq] at hc
        rw [AppendRune_decoded2 p0 b1 (by omega) c3 hc.1 hc.2]
        rfl
      · rw [if_neg hc] at h
        simp only [Prod.mk.injEq] at h
        exact absurd h.1.symm hr
  · rcases s with _ | ⟨b1, _ | ⟨b2, s⟩⟩
    · simp only [decodeTail3, Prod.mk.injEq] at h
      exact absurd h.1.symm hr
    · simp only [decodeTail3, Prod.mk.injEq] at h
      exact absurd h.1.symm hr
    · simp only [decodeTail3] at h
      by_cases hc : (decide ((if p0 = 0xE0 then 0xA0 else 0x80) ≤ b1)
          && decide (b1 ≤ (if p0 = 0xED then 0x9F else 0xBF)) && isCont b2) = true
      · rw [if_pos hc] at h
        simp only [Prod.mk.injEq] at h
        obtain ⟨rfl, rfl⟩ := h
        obtain ⟨h1, h2, h3, h4, h5, h6⟩ := tail3_cond hc
        rw [AppendRune_decoded3 p0 b1 b2 (by omega) c4 h1 h2 h3 h4 h5 h6]
        rfl
      · rw [if_neg hc] at h
        simp only [Prod.mk.injEq] at h
        exact absurd h.1.symm hr
  · rcases s with _ | ⟨b1, _ | ⟨b2, _ | ⟨b3, s⟩⟩⟩
    · simp only [decodeTail4, Prod.mk.injEq] at h
      exact absurd h.1.symm hr
    · simp only [decodeTail4, Prod.mk.injEq] at h
      exact absurd h.1.symm hr
    · simp only [decodeTail4, Prod.mk.injEq] at h
      exact absurd h.1.symm hr
    · simp only [decodeTail4] at h
      by_cases hc : (decide ((if p0 = 0xF0 then 0x90 else 0x80) ≤ b1)
          && decide (b1 ≤ (if p0 = 0xF4 then 0x8F else 0xBF)) && isCont b2 && isCont b3) = true
      · rw [if_pos hc] at h
        simp only [Prod.mk.injEq] at h
        obtain ⟨rfl, rfl⟩ := h
        obtain ⟨h1, h2, h3, h4, h5, h6, h7, h8⟩ := tail4_cond hc
        rw [AppendRune_decoded4 p0 b1 b2 b3 (by omega) c5 h1 h2 h3 h4 h5 h6 h7 h8]
        rfl
      · rw [if_neg hc] at h
        simp only [Prod.mk.injEq] at h
        exact absurd h.1.symm hr
  · simp only [Prod.mk.injEq] at h
    exact absurd h.1.symm hr

end utf8

/-! ### UTF-8: decoding from the end -/

namespace utf8

theorem DecodeLastRune_of_reverse (s : List Nat) (c0 : Nat) (before : List Nat)
    (h : s.reverse = c0 :: before) :
    DecodeLastRune s =
      if c0 < 0x80 then (c0, 1)
      else
        match before with
        | [] => (RuneError, 1)
        | c1 :: before1 =>
          if RuneStart c1 then lastRuneAt [c1, c0]
          else
            match before1 with
            | [] => (RuneError, 1)
            | c2 :: before2 =>
              if RuneStart c2 then lastRuneAt [c2, c1, c0]
              else
                match before2 with
                | [] => (RuneError, 1)
                | c3 :: _ =>
                  if RuneStart c3 then lastRuneAt [c3, c2, c1, c0] else (RuneError, 1) := by
  unfold DecodeLastRune
  rw [h]

theorem isCont_not_start {b : Nat} (h1 : 0x80 ≤ b) (h2 : b ≤ 0xBF) : RuneStart b = false := by
  simp only [RuneStart, isCont, Bool.not_eq_false', Bool.and_eq_true, decide_eq_true_eq]
  omega

theorem lead_start {b : Nat} (h : 0xC0 ≤ b) : RuneStart b = true := by
  simp only [RuneStart, isCont, Bool.not_eq_true', Bool.and_eq_false_iff,
    decide_eq_false_iff_not]
  omega

/-- The last rune of a string that ends with the encoding of a valid rune is
that rune. -/
theorem DecodeLastRune_AppendRune (p : List Nat) (r : Nat) (h : ValidRune r = true) :
    DecodeLastRune (p ++ AppendRune r) = (r, (AppendRune r).length) := by
  have hd := DecodeRune_AppendRune r h []
  rw [List.append_nil] at hd
  have hv := h
  simp only [ValidRune, Bool.or_eq_true, Bool.and_eq_true, decide_eq_true_eq] at hv
  by_cases h1 : r < 0x80
  · rw [AppendRune_one r h1]
    rw [DecodeLastRune_of_reverse (p ++ [r]) r p.reverse (by simp), if_pos h1]
    rfl
  by_cases h2 : r < 0x800
  · have e := AppendRune_two r (by omega) h2
    rw [e] at hd ⊢
    rw [DecodeLastRune_of_reverse (p ++ [0xC0 + r / 64, 0x80 + r % 64]) (0x80 + r % 64)
      ((0xC0 + r / 64) :: p.reverse) (by simp)]
    rw [if_neg (by omega)]
    simp only [lead_start (show 0xC0 ≤ 0xC0 + r / 64 by omega), if_true, lastRuneAt, hd,
      List.length_cons, List.length_nil]
  by_cases h3 : r < 0x10000
  · have e := AppendRune_three r (by omega) h3 h
    rw [e] at hd ⊢
    rw [DecodeLastRune_of_reverse (p ++ [0xE0 + r / 4096, 0x80 + r / 64 % 64, 0x80 + r % 64])
      (0x80 + r % 64) ((0x80 + r / 64 % 64) :: (0xE0 + r / 4096) :: p.reverse) (by simp)]
    rw [if_neg (by omega)]
    simp only [isCont_not_start (show 0x80 ≤ 0x80 + r / 64 % 64 by omega)
        (show 0x80 + r / 64 % 64 ≤ 0xBF by omega),
      lead_start (show 0xC0 ≤ 0xE0 + r / 4096 by omega), if_true, lastRuneAt, hd,
      List.length_cons, List.length_nil]
    rfl
  · have e := AppendRune_four r (by omega) h
    rw [e] at hd ⊢
    rw [DecodeLastRune_of_reverse
      (p ++ [0xF0 + r / 262144, 0x80 + r / 4096 % 64, 0x80 + r / 64 % 64, 0x80 + r % 64])
      (0x80 + r % 64)
      ((0x80 + r / 64 % 64) :: (0x80 + r / 4096 % 64) :: (0xF0 + r / 262144) :: p.reverse)
      (by simp)]
    rw [if_neg (by omega)]
    simp only [isCont_not_start (show 0x80 ≤ 0x80 + r / 64 % 64 by omega)
        (show 0x80 + r / 64 % 64 ≤ 0xBF by omega),
      isCont_not_start (show 0x80 ≤ 0x80 + r / 4096 % 64 by omega)
        (show 0x80 + r / 4096 % 64 ≤ 0xBF by omega),
      lead_start (show 0xC0 ≤ 0xF0 + r / 262144 by omega), if_true, lastRuneAt, hd,
      List.length_cons, List.length_nil]
    rfl


theorem lastRuneAt_cases (seg : List Nat) :
    (lastRuneAt seg = DecodeRune seg ∧ (DecodeRune seg).2 = seg.length)
    ∨ lastRuneAt seg = (RuneError, 1) := by
  unfold lastRuneAt
  by_cases h : (DecodeRune seg).2 = seg.length
  · left; simp only [h, if_true, and_self]
  · right; simp only [h, if_false]

/-- The last rune of a non-empty string `s` and the bytes `tok` it takes, with
`s = pre ++ tok`: an ASCII byte; or one byte above ASCII, read as `RuneError`;
or a complete multi-byte rune, whose first byte starts a rune. -/
theorem DecodeLastRune_cases (s : List Nat) (hs : s ≠ []) :
    ∃ pre tok, s = pre ++ tok ∧ tok.length = (DecodeLastRune s).2
      ∧ ((∃ c0, tok = [c0] ∧ c0 < 0x80 ∧ (DecodeLastRune s).1 = c0)
        ∨ (∃ c0, tok = [c0] ∧ 0x80 ≤ c0 ∧ DecodeLastRune s = (RuneError, 1))
        ∨ (2 ≤ tok.length ∧ DecodeRune tok = DecodeLastRune s
            ∧ ∃ h t, tok = h :: t ∧ RuneStart h = true)) := by
  cases hrev : s.reverse with
  | nil => exact absurd (List.reverse_eq_nil_iff.mp hrev) hs
  | cons c0 before =>
    have hs0 : s = before.reverse ++ [c0] := by
      have := congrArg List.reverse hrev
      simpa using this
    rw [DecodeLastRune_of_reverse s c0 before hrev]
    by_cases h0 : c0 < 0x80
    · rw [if_pos h0]
      exact ⟨before.reverse, [c0], hs0, rfl, Or.inl ⟨c0, rfl, h0, rfl⟩⟩
    rw [if_neg h0]
    have single : ∃ pre tok, s = pre ++ tok ∧ tok.length = ((RuneError, 1) : Nat × Nat).2
        ∧ ((∃ c0, tok = [c0] ∧ c0 < 0x80 ∧ ((RuneError, 1) : Nat × Nat).1 = c0)
          ∨ (∃ c0, tok = [c0] ∧ 0x80 ≤ c0 ∧ ((RuneError, 1) : Nat × Nat) = (RuneError, 1))
          ∨ (2 ≤ tok.length ∧ DecodeRune tok = (RuneError, 1)
              ∧ ∃ h t, tok = h :: t ∧ RuneStart h = true)) :=
      ⟨before.reverse, [c0], hs0, rfl, Or.inr (Or.inl ⟨c0, rfl, by omega, rfl⟩)⟩
    rcases before with _ | ⟨c1, before1⟩
    · exact single
    simp only
    by_cases s1 : RuneStart c1 = true
    · rw [if_pos s1]
      rcases lastRuneAt_cases [c1, c0] with ⟨e, hw⟩ | e
      · rw [e]
        refine ⟨before1.reverse, [c1, c0], ?_, hw.symm, Or.inr (Or.inr ⟨by simp, rfl,
          c1, [c0], rfl, s1⟩)⟩
        rw [hs0]; simp
      · rw [e]; exact single
    rw [if_neg s1]
    rcases before1 with _ | ⟨c2, before2⟩
    · exact single
    simp only
    by_cases s2 : RuneStart c2 = true
    · rw [if_pos s2]
      rcases lastRuneAt_cases [c2, c1, c0] with ⟨e, hw⟩ | e
      · rw [e]
        refine ⟨before2.reverse, [c2, c1, c0], ?_, hw.symm, Or.inr (Or.inr ⟨by simp, rfl,
          c2, [c1, c0], rfl, s2⟩)⟩
        rw [hs0]; simp
      · rw [e]; exact single
    rw [if_neg s2]
    rcases before2 with _ | ⟨c3, before3⟩
    · exact single
    simp only
    by_cases s3 : RuneStart c3 = true
    · rw [if_pos s3]
      rcases lastRuneAt_cases [c3, c2, c1, c0] with ⟨e, hw⟩ | e
      · rw [e]
        refine ⟨before3.reverse, [c3, c2, c1, c0], ?_, hw.symm, Or.inr (Or.inr ⟨by simp, rfl,
          c3, [c2, c1, c0], rfl, s3⟩)⟩
        rw [hs0]; simp
      · rw [e]; exact single
    rw [if_neg s3]
    exact single

end utf8

/-! ### `unicode.ToLower`: idempotent, valid, and no rune becomes a space

The three facts are read off the table by `tableOK`, which is evaluated once. -/

namespace unicode

theorem caseRanges_ok : tableOK CaseRanges = true := by decide!

theorem lookup_some {t : List CaseRange} {r : Nat} {cr : CaseRange}
    (h : lookup t r = some cr) : cr ∈ t ∧ cr.lo ≤ r ∧ r ≤ cr.hi := by
  unfold lookup at h
  have hm := List.mem_of_find?_eq_some h
  have hp := List.find?_some h
  simp only [Bool.and_eq_true, decide_eq_true_eq] at hp
  exact ⟨hm, hp.1, hp.2⟩

/-- The image of a rune of a range lies between the first and the last
image, at an even distance from the first when the step is two. -/
theorem CaseRange.toLower_mem_image (cr : CaseRange) (r : Nat)
    (hsub : ∀ d, cr.lower = Delta.sub d → d ≤ cr.lo) (h1 : cr.lo ≤ r) (h2 : r ≤ cr.hi) :
    cr.image.1 ≤ cr.toLower r ∧ cr.toLower r ≤ cr.image.2.1
    ∧ (cr.image.2.2 = 2 → (cr.toLower r - cr.image.1) % 2 = 0) := by
  unfold CaseRange.toLower CaseRange.image
  cases hl : cr.lower with
  | add d => simp only; omega
  | sub d =>
    have := hsub d hl
    simp only; omega
  | upperLower => simp only; omega

theorem entryOK_iff {t : List CaseRange} {cr : CaseRange} (h : entryOK t cr = true) :
    cr.lo ≤ cr.hi ∧ 0x80 ≤ cr.lo ∧ (∀ d, cr.lower = Delta.sub d → d ≤ cr.lo)
    ∧ (cr.image.2.1 < 0x41 ∨ 0x5A < cr.image.1)
    ∧ (∀ iv ∈ spaceIntervals, cr.image.2.1 < iv.1 ∨ iv.2 < cr.image.1)
    ∧ (cr.image.2.1 < 0xD800 ∨ (0xE000 ≤ cr.image.1 ∧ cr.image.2.1 ≤ 0x10FFFF))
    ∧ ∀ cr2 ∈ t, pairOK cr cr2 = true := by
  unfold entryOK at h
  simp only [Bool.and_eq_true, Bool.or_eq_true, decide_eq_true_eq, List.all_eq_true] at h
  obtain ⟨⟨⟨⟨⟨⟨h1, h2⟩, h3⟩, h4⟩, h5⟩, h6⟩, h7⟩ := h
  refine ⟨h1, h2, ?_, h4, h5, h6, h7⟩
  intro d hd
  rw [hd] at h3
  simpa using h3

theorem isSpace_interval {r : Nat} (h : IsSpace r = true) :
    ∃ iv ∈ spaceIntervals, iv.1 ≤ r ∧ r ≤ iv.2 := by
  unfold IsSpace at h
  simp only [spaceIntervals, List.mem_cons, List.mem_singleton, exists_eq_or_imp,
    exists_eq_left]
  split at h
  · simp only [Bool.or_eq_true, beq_iff_eq] at h
    simp only [List.not_mem_nil, false_and, exists_false, or_false]
    omega
  · simp only [Bool.or_eq_true, Bool.and_eq_true, beq_iff_eq, decide_eq_true_eq] at h
    simp only [List.not_mem_nil, false_and, exists_false, or_false]
    omega

/-- On a checked table, lower case is idempotent. -/
theorem toLowerWith_idem (t : List CaseRange) (ht : tableOK t = true) (r : Nat) :
    toLowerWith t (toLowerWith t r) = toLowerWith t r := by
  by_cases hr : r ≤ 0x7F
  · have h1 : toLowerWith t r = if 0x41 ≤ r ∧ r ≤ 0x5A then r + 0x20 else r := by
      simp [toLowerWith, hr]
    rw [h1]
    split_ifs with hu
    · have : r + 0x20 ≤ 0x7F := by omega
      have h2 : ¬ (0x41 ≤ r + 0x20 ∧ r + 0x20 ≤ 0x5A) := by omega
      unfold toLowerWith
      rw [if_pos this, if_neg h2]
    · unfold toLowerWith
      rw [if_pos hr, if_neg hu]
  · cases hl : lookup t r with
    | none =>
      have h1 : toLowerWith t r = r := by simp [toLowerWith, hr, hl]
      rw [h1, h1]
    | some cr =>
      have h1 : toLowerWith t r = cr.toLower r := by simp [toLowerWith, hr, hl]
      rw [h1]
      obtain ⟨hmem, hlo, hhi⟩ := lookup_some hl
      have hok := List.all_eq_true.mp ht cr hmem
      obtain ⟨_, _, hsub, hcap, _, _, hpair⟩ := entryOK_iff hok
      obtain ⟨ha, hb, hstep⟩ := cr.toLower_mem_image r hsub hlo hhi
      by_cases hr' : cr.toLower r ≤ 0x7F
      · have h2 : ¬ (0x41 ≤ cr.toLower r ∧ cr.toLower r ≤ 0x5A) := by omega
        unfold toLowerWith
        rw [if_pos hr', if_neg h2]
      · cases hl' : lookup t (cr.toLower r) with
        | none => simp [toLowerWith, hr', hl']
        | some cr2 =>
          obtain ⟨hmem2, hlo2, hhi2⟩ := lookup_some hl'
          have hp := hpair cr2 hmem2
          unfold pairOK at hp
          simp only [Bool.or_eq_true, Bool.and_eq_true, decide_eq_true_eq] at hp
          have h3 : cr2.toLower (cr.toLower r) = cr.toLower r := by
            generalize cr.toLower r = x at ha hb hstep hlo2 hhi2
            rcases hp with (hp | hp) | ⟨⟨⟨hk, hle⟩, hodd⟩, hst⟩
            · omega
            · omega
            · unfold CaseRange.toLower
              rw [hk]
              simp only
              rcases hst with hst | hst
              · have := hstep hst
                omega
              · omega
          simp [toLowerWith, hr', hl', h3]

/-- On a checked table, the lower case of a rune is a space only when the
rune is one. -/
theorem toLowerWith_isSpace (t : List CaseRange) (ht : tableOK t = true) (r : Nat)
    (h : IsSpace (toLowerWith t r) = true) : IsSpace r = true := by
  by_cases hr : r ≤ 0x7F
  · have h1 : toLowerWith t r = if 0x41 ≤ r ∧ r ≤ 0x5A then r + 0x20 else r := by
      simp [toLowerWith, hr]
    rw [h1] at h
    split_ifs at h with hu
    · exfalso
      obtain ⟨iv, hiv, h1, h2⟩ := isSpace_interval h
      simp only [spaceIntervals, List.mem_cons, List.mem_singleton, List.not_mem_nil,
        or_false] at hiv
      rcases hiv with rfl | rfl | rfl | rfl | rfl | rfl | rfl | rfl | rfl | rfl <;>
        simp only at h1 h2 <;> omega
    · exact h
  · cases hl : lookup t r with
    | none =>
      have h1 : toLowerWith t r = r := by simp [toLowerWith, hr, hl]
      rwa [h1] at h
    | some cr =>
      have h1 : toLowerWith t r = cr.toLower r := by simp [toLowerWith, hr, hl]
      rw [h1] at h
      obtain ⟨hmem, hlo, hhi⟩ := lookup_some hl
      have hok := List.all_eq_true.mp ht cr hmem
      obtain ⟨_, _, hsub, _, hsp, _, _⟩ := entryOK_iff hok
      obtain ⟨ha, hb, _⟩ := cr.toLower_mem_image r hsub hlo hhi
      obtain ⟨iv, hiv, h1, h2⟩ := isSpace_interval h
      have := hsp iv hiv
      omega

/-- On a checked table, the lower case of a valid rune is a valid rune. -/
theorem toLowerWith_valid (t : List CaseRange) (ht : tableOK t = true) (r : Nat)
    (h : utf8.ValidRune r = true) : utf8.ValidRune (toLowerWith t r) = true := by
  by_cases hr : r ≤ 0x7F
  · have h1 : toLowerWith t r = if 0x41 ≤ r ∧ r ≤ 0x5A then r + 0x20 else r := by
      simp [toLowerWith, hr]
    rw [h1]
    unfold utf8.ValidRune
    simp only [Bool.or_eq_true, Bool.and_eq_true, decide_eq_true_eq]
    split_ifs <;> omega
  · cases hl : lookup t r with
    | none =>
      have h1 : toLowerWith t r = r := by simp [toLowerWith, hr, hl]
      rwa [h1]
    | some cr =>
      have h1 : toLowerWith t r = cr.toLower r := by simp [toLowerWith, hr, hl]
      rw [h1]
      obtain ⟨hmem, hlo, hhi⟩ := lookup_some hl
      have hok := List.all_eq_true.mp ht cr hmem
      obtain ⟨_, _, hsub, _, _, hv, _⟩ := entryOK_iff hok
      obtain ⟨ha, hb, _⟩ := cr.toLower_mem_image r hsub hlo hhi
      unfold utf8.ValidRune
      simp only [Bool.or_eq_true, Bool.and_eq_true, decide_eq_true_eq]
      omega

theorem ToLower_idem (r : Nat) : ToLower (ToLower r) = ToLower r :=
  toLowerWith_idem CaseRanges caseRanges_ok r

theorem ToLower_isSpace (r : Nat) (h : IsSpace (ToLower r) = true) : IsSpace r = true :=
  toLowerWith_isSpace CaseRanges caseRanges_ok r h

theorem ToLower_valid (r : Nat) (h : utf8.ValidRune r = true) :
    utf8.ValidRune (ToLower r) = true :=
  toLowerWith_valid CaseRanges caseRanges_ok r h

end unicode

/-! ### `strings`: trimming, mapping, and idempotence of normalization

`TrimSpace` returns the empty string or a string whose first and last rune
are no spaces; it returns such a string as it is.  `ToLower` keeps both
properties, because `unicode.ToLower` maps no rune to a space, and is
idempotent. -/

namespace strings
open utf8

theorem drop_width_length_lt (c : Nat) (rest : List Nat) :
    ((c :: rest).drop (DecodeRune (c :: rest)).2).length < (c :: rest).length := by
  have h := DecodeRune_width_pos c rest
  have h2 := DecodeRune_width_le_length (c :: rest)
  simp only [List.length_drop]
  simp only [List.length_cons] at h2 ⊢
  omega

theorem trimLeftLoop_fuel (f : Nat → Bool) :
    ∀ (n m : Nat) (s : GoString), s.length ≤ n → s.length ≤ m →
      trimLeftLoop f n s = trimLeftLoop f m s := by
  intro n
  induction n with
  | zero =>
    intro m s h1 h2
    have : s = [] := List.length_eq_zero.mp (by omega)
    subst this
    cases m <;> simp [trimLeftLoop]
  | succ n ih =>
    intro m s h1 h2
    cases s with
    | nil => cases m <;> simp [trimLeftLoop]
    | cons c rest =>
      cases m with
      | zero => simp at h2
      | succ m =>
        have hlt := drop_width_length_lt c rest
        simp only [trimLeftLoop]
        split
        · apply ih
          · simp only [List.length_cons] at h1 hlt; omega
          · simp only [List.length_cons] at h2 hlt; omega
        · rfl

theorem TrimLeftFunc_nil (f : Nat → Bool) : TrimLeftFunc [] f = [] := by
  simp [TrimLeftFunc, trimLeftLoop]

theorem TrimLeftFunc_cons (f : Nat → Bool) (c : Nat) (rest : List Nat) :
    TrimLeftFunc (c :: rest) f =
      if f (DecodeRune (c :: rest)).1 then
        TrimLeftFunc ((c :: rest).drop (DecodeRune (c :: rest)).2) f
      else c :: rest := by
  have hlt := drop_width_length_lt c rest
  simp only [TrimLeftFunc, List.length_cons, trimLeftLoop]
  split
  · apply trimLeftLoop_fuel
    · simp only [List.length_cons] at hlt; omega
    · exact le_refl _
  · rfl

theorem mapLoop_fuel (f : Nat → Nat) :
    ∀ (n m : Nat) (s : GoString), s.length ≤ n → s.length ≤ m →
      mapLoop f n s = mapLoop f m s := by
  intro n
  induction n with
  | zero =>
    intro m s h1 h2
    have : s = [] := List.length_eq_zero.mp (by omega)
    subst this
    cases m <;> simp [mapLoop]
  | succ n ih =>
    intro m s h1 h2
    cases s with
    | nil => cases m <;> simp [mapLoop]
    | cons c rest =>
      cases m with
      | zero => simp at h2
      | succ m =>
        have hlt := drop_width_length_lt c rest
        simp only [mapLoop]
        congr 1
        apply ih
        · simp only [List.length_cons] at h1 hlt; omega
        · simp only [List.length_cons] at h2 hlt; omega

theorem Map_nil (f : Nat → Nat) : Map f [] = [] := by
  simp [Map, mapLoop]

theorem Map_cons (f : Nat → Nat) (c : Nat) (rest : List Nat) :
    Map f (c :: rest) =
      AppendRune (f (DecodeRune (c :: rest)).1)
        ++ Map f ((c :: rest).drop (DecodeRune (c :: rest)).2) := by
  have hlt := drop_width_length_lt c rest
  simp only [Map, List.length_cons, mapLoop]
  congr 1
  apply mapLoop_fuel
  · simp only [List.length_cons] at hlt; omega
  · exact le_refl _

theorem AppendRune_ne_nil (r : Nat) : AppendRune r ≠ [] := by
  intro h
  have := AppendRune_length_pos r
  rw [h] at this
  simp at this

theorem Map_AppendRune (f : Nat → Nat) (r : Nat) (h : ValidRune r = true) (rest : List Nat) :
    Map f (AppendRune r ++ rest) = AppendRune (f r) ++ Map f rest := by
  have hd := DecodeRune_AppendRune r h rest
  have hne := AppendRune_ne_nil r
  cases hA : AppendRune r with
  | nil => exact absurd hA hne
  | cons a as =>
    rw [hA] at hd
    rw [List.cons_append, Map_cons]
    rw [← List.cons_append, hd]
    simp

theorem lastIndexLoop_fuel (f : Nat → Bool) :
    ∀ (n m : Nat) (s : GoString), s.length ≤ n → s.length ≤ m →
      lastIndexLoop f n s = lastIndexLoop f m s := by
  intro n
  induction n with
  | zero =>
    intro m s h1 h2
    have : s = [] := List.length_eq_zero.mp (by omega)
    subst this
    cases m <;> simp [lastIndexLoop]
  | succ n ih =>
    intro m s h1 h2
    cases s with
    | nil => cases m <;> simp [lastIndexLoop]
    | cons c rest =>
      cases m with
      | zero => simp at h2
      | succ m =>
        simp only [lastIndexLoop]
        split
        · have hw : 1 ≤ (DecodeLastRune (c :: rest)).2 := by
            obtain ⟨pre, tok, _, hlen, hc⟩ := DecodeLastRune_cases (c :: rest) (by simp)
            rcases hc with ⟨c0, ht, _, _⟩ | ⟨c0, ht, _, _⟩ | ⟨h2, _, _⟩
            · rw [← hlen, ht]; simp
            · rw [← hlen, ht]; simp
            · omega
          apply ih
          · simp only [List.length_take, List.length_cons] at h1 ⊢; omega
          · simp only [List.length_take, List.length_cons] at h2 ⊢; omega
        · rfl

theorem Map_ToLower_idem (s : GoString) :
    Map unicode.ToLower (Map unicode.ToLower s) = Map unicode.ToLower s := by
  generalize hn : s.length = n
  induction n using Nat.strong_induction_on generalizing s with
  | _ n ih =>
    cases s with
    | nil => simp [Map_nil]
    | cons c rest =>
      have hlt := drop_width_length_lt c rest
      rw [Map_cons]
      have hv : ValidRune (unicode.ToLower (DecodeRune (c :: rest)).1) = true :=
        unicode.ToLower_valid _ (DecodeRune_valid _)
      rw [Map_AppendRune _ _ hv, unicode.ToLower_idem]
      rw [ih _ (by rw [← hn]; exact hlt) _ rfl]

theorem Map_first (f : Nat → Nat) (c : Nat) (rest : List Nat)
    (hv : ValidRune (f (DecodeRune (c :: rest)).1) = true) :
    (DecodeRune (Map f (c :: rest))).1 = f (DecodeRune (c :: rest)).1 := by
  rw [Map_cons, DecodeRune_AppendRune _ hv]

theorem Map_ne_nil (f : Nat → Nat) (s : GoString) (hs : s ≠ []) : Map f s ≠ [] := by
  cases s with
  | nil => exact absurd rfl hs
  | cons c rest =>
    rw [Map_cons]
    intro h
    have := AppendRune_ne_nil (f (DecodeRune (c :: rest)).1)
    simp at h
    exact this h.1

theorem Map_last (f : Nat → Nat) (s : GoString) (hs : s ≠ []) :
    ∃ p r, Map f s = p ++ AppendRune (f r) ∧ ValidRune r = true ∧
      (r ≠ RuneError → ∃ q, s = q ++ AppendRune r) := by
  generalize hn : s.length = n
  induction n using Nat.strong_induction_on generalizing s with
  | _ n ih =>
    cases s with
    | nil => exact absurd rfl hs
    | cons c rest =>
      have hlt := drop_width_length_lt c rest
      rw [Map_cons]
      by_cases hd : (c :: rest).drop (DecodeRune (c :: rest)).2 = []
      · refine ⟨[], (DecodeRune (c :: rest)).1, ?_, DecodeRune_valid _, ?_⟩
        · rw [hd, Map_nil]; simp
        · intro hr
          refine ⟨[], ?_⟩
          have := DecodeRune_bytes (c :: rest) (DecodeRune (c :: rest)).1
            (DecodeRune (c :: rest)).2 rfl hr
          rw [hd, List.append_nil] at this
          rw [List.nil_append]
          exact this
      · obtain ⟨p, r, hm, hv, hq⟩ := ih _ (by rw [← hn]; exact hlt) _ hd rfl
        refine ⟨AppendRune (f (DecodeRune (c :: rest)).1) ++ p, r, ?_, hv, ?_⟩
        · rw [hm, List.append_assoc]
        · intro hr
          obtain ⟨q, hq⟩ := hq hr
          refine ⟨(c :: rest).take (DecodeRune (c :: rest)).2 ++ q, ?_⟩
          rw [List.append_assoc, ← hq, List.take_append_drop]

theorem lowerByte_eq (c : Nat) (h : c < 0x80) : unicode.ToLower c = lowerByte c := by
  unfold unicode.ToLower unicode.toLowerWith lowerByte
  have h1 : c ≤ 0x7F := by omega
  simp only [h1, if_true]

theorem DecodeRune_ascii (c : Nat) (rest : List Nat) (h : c < 0x80) :
    DecodeRune (c :: rest) = (c, 1) := by
  rw [DecodeRune_cons, if_pos h]

theorem lowerByte_lt (c : Nat) (h : c < 0x80) : lowerByte c < 0x80 := by
  unfold lowerByte
  split <;> omega

theorem Map_ascii (s : GoString) (h : ∀ c ∈ s, c < 0x80) :
    Map unicode.ToLower s = s.map lowerByte := by
  induction s with
  | nil => simp [Map_nil]
  | cons c rest ih =>
    have hc : c < 0x80 := h c (List.mem_cons_self _ _)
    rw [Map_cons, DecodeRune_ascii c rest hc, lowerByte_eq c hc,
      AppendRune_one _ (lowerByte_lt c hc)]
    simp only [List.drop_succ_cons, List.drop_zero, List.map_cons, List.singleton_append]
    rw [ih (fun x hx => h x (List.mem_cons_of_mem _ hx))]

theorem map_lowerByte_of_no_upper (s : GoString)
    (h : s.any (fun c => decide (0x41 ≤ c ∧ c ≤ 0x5A)) = false) : s.map lowerByte = s := by
  induction s with
  | nil => rfl
  | cons c rest ih =>
    simp only [List.any_cons, Bool.or_eq_false_iff, decide_eq_false_iff_not] at h
    simp only [List.map_cons, ih h.2]
    unfold lowerByte
    rw [if_neg h.1]

theorem ToLower_eq_Map (s : GoString) : ToLower s = Map unicode.ToLower s := by
  unfold ToLower
  by_cases ha : s.all (fun c => decide (c < 0x80)) = true
  · rw [if_pos ha]
    have hall : ∀ c ∈ s, c < 0x80 := by
      intro c hc
      have := List.all_eq_true.mp ha c hc
      simpa using this
    rw [Map_ascii s hall]
    by_cases hu : s.any (fun c => decide (0x41 ≤ c ∧ c ≤ 0x5A)) = true
    · rw [if_pos hu]
    · rw [if_neg hu]
      exact (map_lowerByte_of_no_upper s (by simpa using hu)).symm
  · rw [if_neg ha]

theorem ToLower_ToLower (s : GoString) : ToLower (ToLower s) = ToLower s := by
  rw [ToLower_eq_Map, ToLower_eq_Map, Map_ToLower_idem]

theorem IsSpace_ascii (c : Nat) (h : c < 0x80) : unicode.IsSpace c = asciiSpace c := by
  unfold unicode.IsSpace asciiSpace
  have h1 : c ≤ 0xFF := by omega
  have h2 : (c == 0x85) = false := by simp; omega
  have h3 : (c == 0xA0) = false := by simp; omega
  simp only [h1, if_true, h2, h3, Bool.or_false]

theorem IsSpace_RuneError : unicode.IsSpace RuneError = false := by decide

theorem TrimLeftFunc_first (f : Nat → Bool) (s : GoString) :
    TrimLeftFunc s f = [] ∨ f (DecodeRune (TrimLeftFunc s f)).1 = false := by
  generalize hn : s.length = n
  induction n using Nat.strong_induction_on generalizing s with
  | _ n ih =>
    cases s with
    | nil => left; exact TrimLeftFunc_nil f
    | cons c rest =>
      have hlt := drop_width_length_lt c rest
      rw [TrimLeftFunc_cons]
      by_cases hf : f (DecodeRune (c :: rest)).1 = true
      · rw [if_pos hf]
        exact ih _ (by rw [← hn]; exact hlt) _ rfl
      · rw [if_neg hf]
        right
        simpa using hf

theorem TrimLeftFunc_fix (f : Nat → Bool) (s : GoString)
    (h : f (DecodeRune s).1 = false) : TrimLeftFunc s f = s := by
  cases s with
  | nil => exact TrimLeftFunc_nil f
  | cons c rest =>
    rw [TrimLeftFunc_cons, h]
    simp

theorem TrimLeftFunc_suffix (f : Nat → Bool) (s : GoString) :
    ∃ p, s = p ++ TrimLeftFunc s f := by
  generalize hn : s.length = n
  induction n using Nat.strong_induction_on generalizing s with
  | _ n ih =>
    cases s with
    | nil => exact ⟨[], by simp [TrimLeftFunc_nil]⟩
    | cons c rest =>
      have hlt := drop_width_length_lt c rest
      rw [TrimLeftFunc_cons]
      by_cases hf : f (DecodeRune (c :: rest)).1 = true
      · rw [if_pos hf]
        obtain ⟨p, hp⟩ := ih _ (by rw [← hn]; exact hlt) _ rfl
        refine ⟨(c :: rest).take (DecodeRune (c :: rest)).2 ++ p, ?_⟩
        rw [List.append_assoc, ← hp, List.take_append_drop]
      · rw [if_neg hf]
        exact ⟨[], rfl⟩

theorem DecodeLastRune_width_pos (s : GoString) (hs : s ≠ []) :
    1 ≤ (DecodeLastRune s).2 := by
  obtain ⟨pre, tok, _, hlen, hc⟩ := DecodeLastRune_cases s hs
  rcases hc with ⟨c0, ht, _, _⟩ | ⟨c0, ht, _, _⟩ | ⟨h2, _, _⟩
  · rw [← hlen, ht]; simp
  · rw [← hlen, ht]; simp
  · omega

theorem DecodeLastRune_width_le (s : GoString) (hs : s ≠ []) :
    (DecodeLastRune s).2 ≤ s.length := by
  obtain ⟨pre, tok, hst, hlen, _⟩ := DecodeLastRune_cases s hs
  rw [← hlen]
  have := congrArg List.length hst
  simp only [List.length_append] at this
  omega

theorem lastIndex_eq (f : Nat → Bool) (s : GoString) (hs : s ≠ []) :
    lastIndexLoop f s.length s =
      if f (DecodeLastRune s).1 then
        lastIndexLoop f (s.take (s.length - (DecodeLastRune s).2)).length
          (s.take (s.length - (DecodeLastRune s).2))
      else some (s.length - (DecodeLastRune s).2) := by
  cases s with
  | nil => exact absurd rfl hs
  | cons c rest =>
    have hw := DecodeLastRune_width_pos (c :: rest) hs
    simp only [List.length_cons, lastIndexLoop]
    split
    · apply lastIndexLoop_fuel
      · simp only [List.length_take, List.length_cons]; omega
      · exact le_refl _
    · rfl

theorem RuneStart_ascii {c : Nat} (h : c < 0x80) : RuneStart c = true := by
  simp [RuneStart, isCont]
  omega

theorem head_ge_of_width {h : Nat} {t : List Nat} (hw : 2 ≤ (DecodeRune (h :: t)).2) :
    0x80 ≤ h := by
  by_contra hlt
  rw [DecodeRune_ascii h t (by omega)] at hw
  simp at hw

theorem trimRight_core (cur t : GoString) (hcur : cur ≠ []) (ht : AtBoundary t) :
    (if 0x80 ≤ (cur ++ t).getD (cur.length - (DecodeLastRune cur).2) 0 then
        (cur ++ t).take (cur.length - (DecodeLastRune cur).2
          + (DecodeRune ((cur ++ t).drop (cur.length - (DecodeLastRune cur).2))).2)
      else (cur ++ t).take (cur.length - (DecodeLastRune cur).2 + 1)) = cur := by
  obtain ⟨pre, tok, hst, hlen, hc⟩ := DecodeLastRune_cases cur hcur
  have hi : cur.length - (DecodeLastRune cur).2 = pre.length := by
    rw [← hlen, hst, List.length_append]; omega
  rw [hi]
  have hdrop : (cur ++ t).drop pre.length = tok ++ t := by
    rw [hst, List.append_assoc, List.drop_left]
  have htake : ∀ k, k = tok.length → (cur ++ t).take (pre.length + k) = cur := by
    intro k hk
    rw [hst, List.append_assoc, List.take_append, hk, List.take_left]
  have hget : ∀ c0 tl, tok = c0 :: tl → (cur ++ t).getD pre.length 0 = c0 := by
    intro c0 tl h
    rw [hst, h, List.append_assoc, List.getD_eq_getElem?_getD,
      List.getElem?_append_right (le_refl _)]
    simp
  rcases hc with ⟨c0, htok, hlt, _⟩ | ⟨c0, htok, hge, _⟩ | ⟨h2, hdec, h, tl, htok, hstart⟩
  · rw [hget c0 [] htok, if_neg (by omega)]
    exact htake 1 (by rw [htok]; rfl)
  · rw [hget c0 [] htok, if_pos hge, hdrop, htok]
    have := DecodeRune_single c0 t hge ht
    rw [List.singleton_append, this]
    exact htake 1 (by rw [htok]; rfl)
  · have hdec2 : DecodeRune tok = ((DecodeLastRune cur).1, tok.length) := by
      rw [hdec, hlen]
    have hge : 0x80 ≤ h := by
      apply head_ge_of_width (t := tl)
      rw [← htok, hdec2]; exact h2
    rw [hget h tl htok, if_pos hge, hdrop, DecodeRune_append tok t _ hdec2 h2]
    exact htake _ rfl

theorem lastIndex_spec (f : Nat → Bool) (hf : f RuneError = false) (s : GoString) (i : Nat)
    (h : lastIndexLoop f s.length s = some i) :
    ∃ cur t, s = cur ++ t ∧ cur ≠ [] ∧ AtBoundary t ∧ f (DecodeLastRune cur).1 = false
      ∧ i = cur.length - (DecodeLastRune cur).2 := by
  generalize hn : s.length = n at h
  induction n using Nat.strong_induction_on generalizing s with
  | _ n ih =>
    by_cases hs : s = []
    · subst hs
      simp at hn
      subst hn
      simp [lastIndexLoop] at h
    · rw [← hn, lastIndex_eq f s hs] at h
      by_cases hfd : f (DecodeLastRune s).1 = true
      · rw [if_pos hfd] at h
        obtain ⟨pre, tok, hst, hlen, hc⟩ := DecodeLastRune_cases s hs
        have hw := DecodeLastRune_width_pos s hs
        have hi : s.length - (DecodeLastRune s).2 = pre.length := by
          rw [← hlen, hst, List.length_append]; omega
        have htk : s.take pre.length = pre := by rw [hst, List.take_left]
        rw [hi, htk] at h
        have hlt : pre.length < n := by
          rw [← hn, hst, List.length_append]; omega
        obtain ⟨cur, t, hpre, hcur, hb, hfc, hidx⟩ := ih _ hlt pre rfl h
        refine ⟨cur, t ++ tok, ?_, hcur, ?_, hfc, hidx⟩
        · rw [hst, hpre, List.append_assoc]
        · rcases hb with rfl | ⟨h0, tl, rfl, hstart⟩
          · rw [List.nil_append]
            right
            rcases hc with ⟨c0, htok, hlt0, _⟩ | ⟨c0, htok, hge, hd⟩ | ⟨h2, hdec, h0, tl, htok, hstart⟩
            · exact ⟨c0, [], htok, RuneStart_ascii hlt0⟩
            · rw [hd] at hfd
              rw [hf] at hfd
              exact absurd hfd (by simp)
            · exact ⟨h0, tl, htok, hstart⟩
          · right
            exact ⟨h0, tl ++ tok, rfl, hstart⟩
      · rw [if_neg hfd] at h
        refine ⟨s, [], by simp, hs, Or.inl rfl, by simpa using hfd, ?_⟩
        exact (Option.some.inj h).symm

theorem TrimRightFunc_spec (f : Nat → Bool) (hf : f RuneError = false) (s : GoString) :
    (∃ t, s = TrimRightFunc s f ++ t) ∧
      (TrimRightFunc s f = [] ∨ f (DecodeLastRune (TrimRightFunc s f)).1 = false) := by
  unfold TrimRightFunc
  cases h : lastIndexLoop f s.length s with
  | none => exact ⟨⟨s, rfl⟩, Or.inl rfl⟩
  | some i =>
    obtain ⟨cur, t, hst, hcur, hb, hfc, hidx⟩ := lastIndex_spec f hf s i h
    have := trimRight_core cur t hcur hb
    simp only
    rw [hidx, hst, this]
    exact ⟨⟨t, rfl⟩, Or.inr hfc⟩

theorem TrimRightFunc_fix (f : Nat → Bool) (s : GoString) (hs : s ≠ [])
    (h : f (DecodeLastRune s).1 = false) : TrimRightFunc s f = s := by
  unfold TrimRightFunc
  rw [lastIndex_eq f s hs, h]
  have := trimRight_core s [] hs (Or.inl rfl)
  simp only [List.append_nil] at this
  simpa using this

theorem first_of_append (X R t : GoString) (h : X = R ++ t)
    (hX : unicode.IsSpace (DecodeRune X).1 = false) :
    R = [] ∨ unicode.IsSpace (DecodeRune R).1 = false := by
  by_cases hR : R = []
  · exact Or.inl hR
  · right
    rcases DecodeRune_of_append R t hR with h1 | h1
    · rw [h1, ← h]; exact hX
    · rw [h1]; exact IsSpace_RuneError

theorem DecodeLastRune_ascii (s : GoString) (c : Nat) (before : List Nat)
    (h : s.reverse = c :: before) (hc : c < 0x80) : DecodeLastRune s = (c, 1) := by
  rw [DecodeLastRune_of_reverse s c before h, if_pos hc]

theorem trimSpaceEnd_append (rev : GoString) : ∃ t, rev.reverse = trimSpaceEnd rev ++ t := by
  induction rev with
  | nil => exact ⟨[], rfl⟩
  | cons c before ih =>
    unfold trimSpaceEnd
    by_cases h1 : 0x80 ≤ c
    · rw [if_pos h1]
      exact (TrimRightFunc_spec _ IsSpace_RuneError _).1
    · rw [if_neg h1]
      by_cases h2 : asciiSpace c = true
      · rw [if_pos h2]
        obtain ⟨t, ht⟩ := ih
        refine ⟨t ++ [c], ?_⟩
        rw [List.reverse_cons, ht, List.append_assoc]
      · rw [if_neg h2]
        exact ⟨[], by simp⟩

theorem trimSpaceEnd_last (rev : GoString) :
    trimSpaceEnd rev = [] ∨ unicode.IsSpace (DecodeLastRune (trimSpaceEnd rev)).1 = false := by
  induction rev with
  | nil => exact Or.inl rfl
  | cons c before ih =>
    unfold trimSpaceEnd
    by_cases h1 : 0x80 ≤ c
    · rw [if_pos h1]
      exact (TrimRightFunc_spec _ IsSpace_RuneError _).2
    · rw [if_neg h1]
      by_cases h2 : asciiSpace c = true
      · rw [if_pos h2]
        exact ih
      · rw [if_neg h2]
        right
        rw [DecodeLastRune_ascii _ c before (by simp) (by omega), IsSpace_ascii c (by omega)]
        simpa using h2

theorem TrimSpace_within (s : GoString) : ∃ p t, s = p ++ TrimSpace s ++ t := by
  induction s with
  | nil => exact ⟨[], [], rfl⟩
  | cons c rest ih =>
    unfold TrimSpace
    by_cases h1 : 0x80 ≤ c
    · rw [if_pos h1]
      unfold TrimFunc
      obtain ⟨p, hp⟩ := TrimLeftFunc_suffix unicode.IsSpace (c :: rest)
      obtain ⟨t, ht⟩ := (TrimRightFunc_spec unicode.IsSpace IsSpace_RuneError
        (TrimLeftFunc (c :: rest) unicode.IsSpace)).1
      refine ⟨p, t, ?_⟩
      rw [List.append_assoc, ← ht, ← hp]
    · rw [if_neg h1]
      by_cases h2 : asciiSpace c = true
      · rw [if_pos h2]
        obtain ⟨p, t, ht⟩ := ih
        refine ⟨c :: p, t, ?_⟩
        simp only [List.cons_append]
        rw [← ht]
      · rw [if_neg h2]
        obtain ⟨t, ht⟩ := trimSpaceEnd_append (c :: rest).reverse
        rw [List.reverse_reverse] at ht
        exact ⟨[], t, by rw [List.nil_append]; exact ht⟩

theorem TrimSpace_first (s : GoString) :
    TrimSpace s = [] ∨ unicode.IsSpace (DecodeRune (TrimSpace s)).1 = false := by
  induction s with
  | nil => exact Or.inl rfl
  | cons c rest ih =>
    unfold TrimSpace
    by_cases h1 : 0x80 ≤ c
    · rw [if_pos h1]
      unfold TrimFunc
      obtain ⟨t, ht⟩ := (TrimRightFunc_spec unicode.IsSpace IsSpace_RuneError
        (TrimLeftFunc (c :: rest) unicode.IsSpace)).1
      rcases TrimLeftFunc_first unicode.IsSpace (c :: rest) with h | h
      · left
        rw [h] at ht
        have := congrArg List.length ht
        simp only [List.length_nil, List.length_append] at this
        rw [h]
        exact List.length_eq_zero.mp (by omega)
      · exact first_of_append _ _ t ht h
    · rw [if_neg h1]
      by_cases h2 : asciiSpace c = true
      · rw [if_pos h2]
        exact ih
      · rw [if_neg h2]
        obtain ⟨t, ht⟩ := trimSpaceEnd_append (c :: rest).reverse
        rw [List.reverse_reverse] at ht
        apply first_of_append (c :: rest) _ t ht
        rw [DecodeRune_ascii c rest (by omega), IsSpace_ascii c (by omega)]
        simpa using h2

theorem TrimSpace_last (s : GoString) :
    TrimSpace s = [] ∨ unicode.IsSpace (DecodeLastRune (TrimSpace s)).1 = false := by
  induction s with
  | nil => exact Or.inl rfl
  | cons c rest ih =>
    unfold TrimSpace
    by_cases h1 : 0x80 ≤ c
    · rw [if_pos h1]
      exact (TrimRightFunc_spec _ IsSpace_RuneError _).2
    · rw [if_neg h1]
      by_cases h2 : asciiSpace c = true
      · rw [if_pos h2]
        exact ih
      · rw [if_neg h2]
        exact trimSpaceEnd_last _

theorem TrimSpace_fix (X : GoString) (hX : X ≠ [])
    (h1 : unicode.IsSpace (DecodeRune X).1 = false)
    (h2 : unicode.IsSpace (DecodeLastRune X).1 = false) : TrimSpace X = X := by
  cases X with
  | nil => exact absurd rfl hX
  | cons c rest =>
    unfold TrimSpace
    by_cases hc : 0x80 ≤ c
    · rw [if_pos hc]
      unfold TrimFunc
      rw [TrimLeftFunc_fix _ _ h1, TrimRightFunc_fix _ _ hX h2]
    · rw [if_neg hc]
      rw [DecodeRune_ascii c rest (by omega), IsSpace_ascii c (by omega)] at h1
      rw [h1]
      simp only [Bool.false_eq_true, if_false]
      cases hr : (c :: rest).reverse with
      | nil => simp at hr
      | cons l before =>
        have hrev : (l :: before).reverse = c :: rest := by
          rw [← hr, List.reverse_reverse]
        unfold trimSpaceEnd
        by_cases hl : 0x80 ≤ l
        · rw [if_pos hl, hrev]
          exact TrimRightFunc_fix _ _ hX h2
        · rw [if_neg hl]
          rw [DecodeLastRune_ascii _ l before hr (by omega), IsSpace_ascii l (by omega)] at h2
          rw [h2]
          simp only [Bool.false_eq_true, if_false]
          exact hrev

theorem asciiSpace_lt {c : Nat} (h : asciiSpace c = true) : c < 0x80 := by
  simp only [asciiSpace, Bool.or_eq_true, beq_iff_eq] at h
  omega

/-- `TrimSpace` of a string of ASCII white space is empty. -/
theorem trimSpace_of_all_space (s : GoString) (h : s.all asciiSpace = true) :
    TrimSpace s = [] := by
  induction s with
  | nil => rfl
  | cons c rest ih =>
    simp only [List.all_cons, Bool.and_eq_true] at h
    unfold TrimSpace
    have := asciiSpace_lt h.1
    rw [if_neg (by omega), if_pos h.1]
    exact ih h.2

/-- Normalization, trimming then lowering, is idempotent. -/
theorem normalize_idempotent (s : GoString) :
    ToLower (TrimSpace (ToLower (TrimSpace s))) = ToLower (TrimSpace s) := by
  by_cases hT : TrimSpace s = []
  · rw [hT]
    have : ToLower [] = [] := by decide
    rw [this]
    have : TrimSpace [] = [] := rfl
    rw [this]
    decide
  · have hfix : TrimSpace (ToLower (TrimSpace s)) = ToLower (TrimSpace s) := by
      have p1 := (TrimSpace_first s).resolve_left hT
      have p2 := (TrimSpace_last s).resolve_left hT
      rw [ToLower_eq_Map]
      apply TrimSpace_fix
      · exact Map_ne_nil _ _ hT
      · cases hTs : TrimSpace s with
        | nil => exact absurd hTs hT
        | cons c rest =>
          rw [hTs] at p1
          rw [Map_first _ c rest (unicode.ToLower_valid _ (DecodeRune_valid _))]
          cases hsp : unicode.IsSpace (unicode.ToLower (DecodeRune (c :: rest)).1) with
          | false => rfl
          | true =>
            rw [unicode.ToLower_isSpace _ hsp] at p1
            exact absurd p1 (by simp)
      · obtain ⟨p, r, hm, hv, hq⟩ := Map_last unicode.ToLower (TrimSpace s) hT
        rw [hm, DecodeLastRune_AppendRune p _ (unicode.ToLower_valid r hv)]
        cases hsp : unicode.IsSpace (unicode.ToLower r) with
        | false => rfl
        | true =>
          have hr := unicode.ToLower_isSpace _ hsp
          have hne : r ≠ RuneError := by
            intro h
            rw [h, IsSpace_RuneError] at hr
            exact absurd hr (by simp)
          obtain ⟨q, hq⟩ := hq hne
          rw [hq, DecodeLastRune_AppendRune q r hv] at p2
          simp only at p2
          rw [hr] at p2
          exact absurd p2 (by simp)
    rw [hfix, ToLower_ToLower]

end strings

/-- Normalization by `goStd` is idempotent. -/
theorem goStd_normalize_idempotent (s : GoString) :
    goStd.ToLower (goStd.TrimSpace (goStd.ToLower (goStd.TrimSpace s)))
      = goStd.ToLower (goStd.TrimSpace s) :=
  strings.normalize_idempotent s

theorem scan_string (env : Stdlib) (e : Email) (s : GoString) :
    Email.Scan env e (GoValue.string s)
      = if (NewEmail env s).2 = none then ((NewEmail env s).1, none)
        else (e, (NewEmail env s).2) := by
  unfold Email.Scan
  rcases h : NewEmail env s with ⟨m, _ | err⟩ <;> simp [h]

theorem scan_bytes (env : Stdlib) (e : Email) (b : List Nat) :
    Email.Scan env e (GoValue.bytes b) = Email.Scan env e (GoValue.string b) := by
  simp [Email.Scan]

theorem unmarshalJSON_eq (env : Stdlib) (e : Email) (data : List Nat) :
    Email.UnmarshalJSON env e data
      = match json.Unmarshal data [] with
        | none => (e, some GoError.Err_FailedToParseEmail)
        | some t =>
          if (NewEmail env t).2 = none then ((NewEmail env t).1, none)
          else (e, some GoError.Err_FailedToParseEmail) := by
  unfold Email.UnmarshalJSON
  cases json.Unmarshal data [] with
  | none => rfl
  | some t =>
    rcases h : NewEmail env t with ⟨m, _ | err⟩ <;> simp [h]

/-! ### Fuel of `json.unquote`

Every step of `unquote` consumes at least one byte, so the length of the
input is enough fuel: more fuel gives the same result. -/

theorem json.unquote_fuel (fuel : Nat) :
    ∀ (fuel' : Nat) (s : List Nat), s.length ≤ fuel → s.length ≤ fuel' →
      json.unquote fuel s = json.unquote fuel' s := by
  induction fuel with
  | zero =>
    intro fuel' s h _
    have hs : s = [] := List.length_eq_zero.mp (Nat.le_zero.mp h)
    subst hs
    cases fuel' <;> simp [json.unquote]
  | succ fuel ih =>
    intro fuel' s h h'
    cases fuel' with
    | zero =>
      have hs : s = [] := List.length_eq_zero.mp (Nat.le_zero.mp h')
      subst hs
      simp [json.unquote]
    | succ fuel' =>
      cases s with
      | nil => simp [json.unquote]
      | cons c rest =>
        have hr : rest.length ≤ fuel := by simpa using h
        have hr' : rest.length ≤ fuel' := by simpa using h'
        have key : ∀ t : List Nat, t.length ≤ rest.length →
            json.unquote fuel t = json.unquote fuel' t :=
          fun t ht => ih fuel' t (le_trans ht hr) (le_trans ht hr')
        have hd : ∀ k, 1 ≤ k → ((c :: rest).drop k).length ≤ rest.length := by
          intro k hk
          simp only [List.length_drop, List.length_cons]
          omega
        have hw := utf8.DecodeRune_width_pos c rest
        simp only [json.unquote]
        rw [key rest (le_refl _), key _ (hd 6 (by omega)), key _ (hd 12 (by omega)),
          key _ (hd _ hw)]
        cases rest with
        | nil => rfl
        | cons e rest1 =>
          simp only
          rw [key rest1 (by simp)]

/-! ### JSON string literals of plain bytes -/

theorem json.scanString_plain (a tail : List Nat) (h : a.all json.plain = true) :
    json.scanString (a ++ 0x22 :: tail) = some (a, tail) := by
  induction a with
  | nil => unfold json.scanString; simp
  | cons c a ih =>
    simp only [List.all_cons, Bool.and_eq_true] at h
    have hc := h.1
    simp only [json.plain, Bool.and_eq_true, decide_eq_true_eq] at hc
    have h1 : ¬ c = 0x22 := hc.1.2
    have h2 : ¬ c = 0x5C := hc.2
    have h3 : ¬ c < 0x20 := by omega
    rw [List.cons_append]
    unfold json.scanString
    simp [h1, h2, h3, ih h.2]

theorem json.unquote_plain (a : List Nat) (h : a.all json.plain = true) :
    ∀ fuel, a.length ≤ fuel → json.unquote fuel a = some a := by
  induction a with
  | nil => intro fuel _; cases fuel <;> simp [json.unquote]
  | cons c a ih =>
    intro fuel hf
    simp only [List.all_cons, Bool.and_eq_true] at h
    have hc := h.1
    simp only [json.plain, Bool.and_eq_true, decide_eq_true_eq] at hc
    cases fuel with
    | zero => simp at hf
    | succ fuel =>
      have h1 : ¬ c = 0x22 := hc.1.2
      have h2 : ¬ c = 0x5C := hc.2
      have h3 : ¬ c < 0x20 := by omega
      have h4 : c < 0x80 := hc.1.1.2
      have hle : a.length ≤ fuel := by simpa using hf
      simp [json.unquote, h1, h2, h3, h4, ih h.2 fuel hle]

theorem json.stringValue_quoted_plain (a : List Nat) (h : a.all json.plain = true) :
    json.stringValue (str "\"" ++ a ++ str "\"") = some a := by
  have hq : str "\"" = [0x22] := by decide
  have hs : json.isSpace 0x22 = false := by decide
  rw [hq]
  simp only [json.stringValue, List.cons_append, List.nil_append, List.append_assoc]
  rw [List.dropWhile_cons_of_neg (by simp [hs])]
  simp only [json.scanString_plain a [] h]
  simp [json.allSpace, json.unquote_plain a h a.length (le_refl _)]

/-- The JSON round trip for an address made of plain bytes: when `NewEmail`
of the address of `e` gives `e` back, `UnmarshalJSON` of what `MarshalJSON`
returns stores `e` and returns nil. -/
theorem marshalJSON_unmarshalJSON_plain (env : Stdlib) (e r : Email)
    (hplain : e.email.all json.plain = true) (hnew : NewEmail env e.email = (e, none)) :
    e.MarshalJSON.2 = none ∧ Email.UnmarshalJSON env r e.MarshalJSON.1 = (e, none) := by
  refine ⟨rfl, ?_⟩
  have hs : json.Unmarshal e.MarshalJSON.1 [] = some e.email := by
    simp only [Email.MarshalJSON, json.Unmarshal, json.stringValue_quoted_plain e.email hplain]
  rw [unmarshalJSON_eq, hs]
  simp [hnew]

/-! ### Shape of the digest -/

theorem md5.leBytes_length (n x : Nat) : (md5.leBytes n x).length = n := by
  induction n generalizing x with
  | zero => rfl
  | succ n ih => simp [md5.leBytes, ih]

theorem md5.leBytes_lt (n x : Nat) : ∀ b ∈ md5.leBytes n x, b < 256 := by
  induction n generalizing x with
  | zero => intro b hb; simp [md5.leBytes] at hb
  | succ n ih =>
    intro b hb
    simp only [md5.leBytes, List.mem_cons] at hb
    rcases hb with hb | hb
    · rw [hb]; exact Nat.mod_lt _ (by decide)
    · exact ih _ b hb

theorem md5.Sum_length (data : List Nat) : (md5.Sum data).length = 16 := by
  simp [md5.Sum, md5.leBytes_length]

theorem md5.Sum_lt (data : List Nat) : ∀ b ∈ md5.Sum data, b < 256 := by
  intro b hb
  simp only [md5.Sum, List.mem_append] at hb
  rcases hb with ((hb | hb) | hb) | hb <;> exact md5.leBytes_lt _ _ b hb

theorem hex.EncodeToString_length (l : List Nat) :
    (hex.EncodeToString l).length = 2 * l.length := by
  induction l with
  | nil => rfl
  | cons v rest ih => simp [hex.EncodeToString, ih]; omega

theorem hex.hextable_isLowerHex :
    ∀ i, i < 16 → hex.isLowerHex (hex.hextable.getD i 0) = true := by
  decide

theorem hex.EncodeToString_isLowerHex (l : List Nat) (h : ∀ b ∈ l, b < 256) :
    ∀ c ∈ hex.EncodeToString l, hex.isLowerHex c = true := by
  induction l with
  | nil => intro c hc; simp [hex.EncodeToString] at hc
  | cons v rest ih =>
    intro c hc
    have hv : v < 256 := h v (List.mem_cons_self _ _)
    simp only [hex.EncodeToString, List.mem_cons] at hc
    rcases hc with hc | hc | hc
    · rw [hc]; exact hex.hextable_isLowerHex _ (by omega)
    · rw [hc]; exact hex.hextable_isLowerHex _ (Nat.mod_lt _ (by decide))
    · exact ih (fun b hb => h b (List.mem_cons_of_mem _ hb)) c hc

/-! ### Results of `Scan` and `UnmarshalJSON` -/

/-- The receiver after `Scan` is the old receiver, the zero value, or the
`Email` of a successful `NewEmail`. -/
theorem scan_receiver (env : Stdlib) (e : Email) (value : GoValue) :
    (Email.Scan env e value).1 = e
    ∨ (Email.Scan env e value).1 = Email.zero
    ∨ ∃ s, (NewEmail env s).2 = none ∧ (Email.Scan env e value).1 = (NewEmail env s).1 := by
  cases value with
  | nil => exact Or.inr (Or.inl rfl)
  | string s =>
    rw [scan_string]
    by_cases hs : (NewEmail env s).2 = none
    · exact Or.inr (Or.inr ⟨s, hs, by simp [hs]⟩)
    · exact Or.inl (by simp [hs])
  | bytes b =>
    rw [scan_bytes, scan_string]
    by_cases hs : (NewEmail env b).2 = none
    · exact Or.inr (Or.inr ⟨b, hs, by simp [hs]⟩)
    · exact Or.inl (by simp [hs])
  | other t v => exact Or.inl rfl

/-- The receiver after `UnmarshalJSON` is the old receiver or the `Email` of
a successful `NewEmail`. -/
theorem unmarshalJSON_receiver (env : Stdlib) (e : Email) (data : List Nat) :
    (Email.UnmarshalJSON env e data).1 = e
    ∨ ∃ s, (NewEmail env s).2 = none
        ∧ (Email.UnmarshalJSON env e data).1 = (NewEmail env s).1 := by
  rw [unmarshalJSON_eq]
  cases json.Unmarshal data [] with
  | none => exact Or.inl rfl
  | some t =>
    by_cases hs : (NewEmail env t).2 = none
    · exact Or.inr ⟨t, hs, by simp [hs]⟩
    · exact Or.inl (by simp [hs])

/-- A reachable `Email` is the zero value or the `Email` of a successful
`NewEmail`. -/
theorem reachable_cases (env : Stdlib) (e : Email) (h : Reachable env e) :
    e = Email.zero ∨ ∃ s, (NewEmail env s).2 = none ∧ e = (NewEmail env s).1 := by
  induction h with
  | zero => exact Or.inl rfl
  | newEmail s =>
    cases hp : env.ParseAddress (env.ToLower (env.TrimSpace s))
    · left; rw [newEmail_of_rejected env s hp]
    · exact Or.inr ⟨s, (newEmail_err_eq_none_iff env s).2 hp, rfl⟩
  | scan e value _ ih =>
    rcases scan_receiver env e value with h | h | h
    · rw [h]; exact ih
    · exact Or.inl h
    · exact Or.inr h
  | unmarshalJSON e data _ ih =>
    rcases unmarshalJSON_receiver env e data with h | h
    · rw [h]; exact ih
    · exact Or.inr h

/-- A successful `NewEmail` never returns an empty address when validation
refuses the empty string. -/
theorem newEmail_email_ne_nil (env : Stdlib) (hEmpty : env.ParseAddress [] = false)
    (s : GoString) (hs : (NewEmail env s).2 = none) : (NewEmail env s).1.email ≠ [] := by
  have hp := (newEmail_err_eq_none_iff env s).1 hs
  rw [newEmail_of_accepted env s hp]
  intro h
  simp only at h
  rw [h, hEmpty] at hp
  exact Bool.noConfusion hp

/-- A `Scan` that returns an error leaves the receiver as it was. -/
theorem scan_receiver_of_error (env : Stdlib) (e : Email) (value : GoValue)
    (h : (Email.Scan env e value).2 ≠ none) : (Email.Scan env e value).1 = e := by
  cases value with
  | nil => exact absurd rfl h
  | string s =>
    rw [scan_string] at h ⊢
    by_cases hs : (NewEmail env s).2 = none
    · simp [hs] at h
    · simp [hs]
  | bytes b =>
    rw [scan_bytes, scan_string] at h ⊢
    by_cases hs : (NewEmail env b).2 = none
    · simp [hs] at h
    · simp [hs]
  | other t v => rfl

/-- An `UnmarshalJSON` that returns an error leaves the receiver as it was. -/
theorem unmarshalJSON_receiver_of_error (env : Stdlib) (e : Email) (data : List Nat)
    (h : (Email.UnmarshalJSON env e data).2 ≠ none) :
    (Email.UnmarshalJSON env e data).1 = e := by
  rw [unmarshalJSON_eq] at h ⊢
  cases hj : json.Unmarshal data [] with
  | none => rfl
  | some t =>
    rw [hj] at h
    by_cases hs : (NewEmail env t).2 = none
    · simp [hs] at h
    · simp [hs]

/-- Evaluations of `TrimSpace` and `ToLower` above ASCII: the no-break space
U+00A0, the control U+0085 and the ideographic space U+3000 are trimmed; the
letter U+00C9 and the Kelvin sign U+212A are lowered; a byte that is not
UTF-8 is kept by `TrimSpace` and written as U+FFFD by `ToLower`. -/
theorem strings.examples_above_ascii :
    strings.TrimSpace (str "\u00a0\u0085 a b\u3000 ") = str "a b"
    ∧ strings.ToLower (str "\u00c9\u212a") = str "\u00e9k"
    ∧ strings.TrimSpace [0x20, 0xFF, 0x41, 0x20] = [0xFF, 0x41]
    ∧ strings.ToLower [0xFF, 0x41] = [0xEF, 0xBF, 0xBD, 0x61]
    ∧ strings.ToLower (strings.TrimSpace (str " \u00c9cole@Example.COM\u00a0"))
        = str "\u00e9cole@example.com" := by
  decide

/-! ## The claims -/

/-- C1: for every string whose normalized form (trimmed, then lower-cased) is
accepted by address validation, `NewEmail` returns a nil error and an `Email`
whose address is the normalized form and whose `Key()` is the lowercase
hexadecimal MD5 digest of its bytes; and the key of
`NewEmail("sample@example.com")` is `45e67126a4c44c6ae030279e21437c79`. -/
theorem C1_newEmail_success :
    (∀ (env : Stdlib) (s : GoString),
      env.ParseAddress (env.ToLower (env.TrimSpace s)) = true →
        (NewEmail env s).2 = none
        ∧ (NewEmail env s).1.email = env.ToLower (env.TrimSpace s)
        ∧ (NewEmail env s).1.Key
            = hex.EncodeToString (md5.Sum (env.ToLower (env.TrimSpace s))))
    ∧ (NewEmail goStd (str "sample@example.com")).2 = none
    ∧ (NewEmail goStd (str "sample@example.com")).1.Key
        = str "45e67126a4c44c6ae030279e21437c79" := by
  refine ⟨?_, by decide, by decide⟩
  intro env s h
  rw [newEmail_of_accepted env s h]
  exact ⟨rfl, rfl, rfl⟩

/-- Witness of C1 at the input `"  Sample@Example.com "`, which validation
accepts once normalized. -/
theorem C1_newEmail_success_witness :
    goStd.ParseAddress (goStd.ToLower (goStd.TrimSpace (str "  Sample@Example.com "))) = true
    ∧ (NewEmail goStd (str "  Sample@Example.com ")).2 = none
    ∧ (NewEmail goStd (str "  Sample@Example.com ")).1.email = str "sample@example.com"
    ∧ (NewEmail goStd (str "  Sample@Example.com ")).1.Key
        = str "45e67126a4c44c6ae030279e21437c79" := by
  have h : goStd.ParseAddress
      (goStd.ToLower (goStd.TrimSpace (str "  Sample@Example.com "))) = true := by decide
  have w := C1_newEmail_success.1 goStd (str "  Sample@Example.com ") h
  refine ⟨h, w.1, ?_, ?_⟩
  · rw [w.2.1]; decide
  · rw [w.2.2]; decide

/-- C2: for every string, `NewEmail` returns a non-nil error exactly when the
normalized form fails address validation; the error is then the sentinel
`Err_FailedToParseEmail`, the same value for every failing input, and the
returned `Email` is the zero value.  `"BAD_EMAIL"` and `""` are such inputs. -/
theorem C2_newEmail_failure :
    (∀ (env : Stdlib) (s : GoString),
      ((NewEmail env s).2 ≠ none ↔
          env.ParseAddress (env.ToLower (env.TrimSpace s)) = false)
      ∧ ((NewEmail env s).2 ≠ none →
          NewEmail env s = (Email.zero, some GoError.Err_FailedToParseEmail)))
    ∧ Email.zero = ⟨str "", str ""⟩
    ∧ NewEmail goStd (str "BAD_EMAIL") = (Email.zero, some GoError.Err_FailedToParseEmail)
    ∧ NewEmail goStd (str "") = (Email.zero, some GoError.Err_FailedToParseEmail) := by
  refine ⟨?_, by decide, by decide, by decide⟩
  intro env s
  cases h : env.ParseAddress (env.ToLower (env.TrimSpace s))
  · simp [newEmail_of_rejected env s h]
  · simp [newEmail_of_accepted env s h]

/-- Witness of C2 at the failing input `"not-an-email"`. -/
theorem C2_newEmail_failure_witness :
    (NewEmail goStd (str "not-an-email")).2 ≠ none
    ∧ NewEmail goStd (str "not-an-email")
        = (Email.zero, some GoError.Err_FailedToParseEmail) := by
  have h : (NewEmail goStd (str "not-an-email")).2 ≠ none := by decide
  exact ⟨h, (C2_newEmail_failure.1 goStd (str "not-an-email")).2 h⟩

/-- C3: strings with the same normalized form get the same result from
`NewEmail`: both fail with the sentinel, or both succeed with the same address
and the same `Key()`.  Normalization by `strings.TrimSpace` and
`strings.ToLower` is idempotent, so whatever address validation accepts,
`NewEmail` of the normalized form of `s` is `NewEmail(s)`, and the address of
a successful `NewEmail` is accepted again, with the same result. -/
theorem C3_newEmail_normal_form :
    (∀ (env : Stdlib) (s s' : GoString),
      env.ToLower (env.TrimSpace s') = env.ToLower (env.TrimSpace s) →
        NewEmail env s' = NewEmail env s
        ∧ (((NewEmail env s).2 = some GoError.Err_FailedToParseEmail
              ∧ (NewEmail env s').2 = some GoError.Err_FailedToParseEmail)
            ∨ ((NewEmail env s).2 = none ∧ (NewEmail env s').2 = none
              ∧ (NewEmail env s').1.email = (NewEmail env s).1.email
              ∧ (NewEmail env s').1.Key = (NewEmail env s).1.Key)))
    ∧ (∀ s : GoString,
        strings.ToLower (strings.TrimSpace (strings.ToLower (strings.TrimSpace s)))
          = strings.ToLower (strings.TrimSpace s))
    ∧ (∀ (P : GoString → Bool) (s : GoString),
        NewEmail (goLib P) (strings.ToLower (strings.TrimSpace s)) = NewEmail (goLib P) s)
    ∧ (∀ (P : GoString → Bool) (s : GoString), (NewEmail (goLib P) s).2 = none →
        NewEmail (goLib P) (NewEmail (goLib P) s).1.email = NewEmail (goLib P) s
        ∧ (NewEmail (goLib P) (NewEmail (goLib P) s).1.email).2 = none) := by
  have key : ∀ (env : Stdlib) (s s' : GoString),
      env.ToLower (env.TrimSpace s') = env.ToLower (env.TrimSpace s) →
      NewEmail env s' = NewEmail env s := by
    intro env s s' h
    simp [NewEmail, h]
  refine ⟨?_, strings.normalize_idempotent, ?_, ?_⟩
  · intro env s s' h
    refine ⟨key env s s' h, ?_⟩
    rw [key env s s' h]
    cases hp : env.ParseAddress (env.ToLower (env.TrimSpace s))
    · left; simp [newEmail_of_rejected env s hp]
    · right; simp [newEmail_of_accepted env s hp]
  · intro P s
    exact key (goLib P) s _ (strings.normalize_idempotent s)
  · intro P s hs
    have hp := (newEmail_err_eq_none_iff (goLib P) s).1 hs
    have he : (NewEmail (goLib P) s).1.email = strings.ToLower (strings.TrimSpace s) := by
      rw [newEmail_of_accepted (goLib P) s hp]
      rfl
    have hk : NewEmail (goLib P) (NewEmail (goLib P) s).1.email = NewEmail (goLib P) s := by
      rw [he]
      exact key (goLib P) s _ (strings.normalize_idempotent s)
    exact ⟨hk, by rw [hk]; exact hs⟩

/-- Witness of C3: `"  Sample@Example.com "` and `"sample@example.com"` have
the same normalized form and the same result. -/
theorem C3_newEmail_normal_form_witness :
    goStd.ToLower (goStd.TrimSpace (str "  Sample@Example.com "))
      = goStd.ToLower (goStd.TrimSpace (str "sample@example.com"))
    ∧ NewEmail goStd (str "  Sample@Example.com ") = NewEmail goStd (str "sample@example.com")
    ∧ (NewEmail goStd (str "sample@example.com")).2 = none := by
  have h : goStd.ToLower (goStd.TrimSpace (str "  Sample@Example.com "))
      = goStd.ToLower (goStd.TrimSpace (str "sample@example.com")) := by decide
  exact ⟨h, (C3_newEmail_normal_form.1 goStd _ _ h).1, by decide⟩

/-- C4, at the address `"a"@b.c` (a quoted local part, which `NewEmail`
accepts): `MarshalJSON` returns the bytes `""a"@b.c"`, the address between
two quotes with its own quotes left unescaped.  That is not a JSON string, and
`UnmarshalJSON` on those bytes returns the parse-failure sentinel and leaves
the receiver alone, so the round trip fails.  For `"Sample@Example.com "` the
encoding is `"sample@example.com"` and it decodes back to the same `Email`. -/
theorem C4_marshalJSON_quoted_local_part :
    NewEmail goStd (str "\"a\"@b.c")
      = (⟨str "\"a\"@b.c", str "427b47ceec129b1adedb1e3c553db660"⟩, none)
    ∧ (NewEmail goStd (str "\"a\"@b.c")).1.MarshalJSON = (str "\"\"a\"@b.c\"", none)
    ∧ json.stringValue (str "\"\"a\"@b.c\"") = none
    ∧ (∀ e : Email, Email.UnmarshalJSON goStd e (str "\"\"a\"@b.c\"")
        = (e, some GoError.Err_FailedToParseEmail))
    ∧ (NewEmail goStd (str "Sample@Example.com ")).1.MarshalJSON
        = (str "\"sample@example.com\"", none)
    ∧ (∀ e : Email, Email.UnmarshalJSON goStd e (str "\"sample@example.com\"")
        = NewEmail goStd (str "Sample@Example.com ")) := by
  refine ⟨by decide, by decide, by decide, ?_, by decide, ?_⟩
  · intro e
    have h : json.Unmarshal (str "\"\"a\"@b.c\"") [] = none := by decide
    rw [unmarshalJSON_eq, h]
  · intro e
    have h : json.Unmarshal (str "\"sample@example.com\"") [] = some (str "sample@example.com") := by
      decide
    have h2 : NewEmail goStd (str "sample@example.com") = NewEmail goStd (str "Sample@Example.com ") := by
      decide
    have h3 : (NewEmail goStd (str "Sample@Example.com ")).2 = none := by decide
    rw [unmarshalJSON_eq, h]
    simp only [h2, h3, if_true]
    exact Prod.ext rfl h3.symm

/-- C5: provided address validation refuses the empty string,
`UnmarshalJSON(data)` returns nil exactly when `data` is a JSON string literal
whose content `t` is accepted by `NewEmail`, and the receiver is then the
`Email` that `NewEmail(t)` returns; in every other case the error is the
sentinel `Err_FailedToParseEmail`, for input that is not a JSON string (the
number `123`) and for an invalid address (`"BAD_EMAIL"`) alike. -/
theorem C5_unmarshalJSON :
    (∀ (env : Stdlib), env.ParseAddress (env.ToLower (env.TrimSpace [])) = false →
      ∀ (e : Email) (data : List Nat),
        ((Email.UnmarshalJSON env e data).2 = none ↔
            ∃ t, json.stringValue data = some t ∧ (NewEmail env t).2 = none)
        ∧ (∀ t, json.stringValue data = some t → (NewEmail env t).2 = none →
            Email.UnmarshalJSON env e data = ((NewEmail env t).1, none))
        ∧ ((Email.UnmarshalJSON env e data).2 ≠ none →
            (Email.UnmarshalJSON env e data).2 = some GoError.Err_FailedToParseEmail))
    ∧ (∀ e : Email,
        Email.UnmarshalJSON goStd e (str "123") = (e, some GoError.Err_FailedToParseEmail))
    ∧ (∀ e : Email,
        Email.UnmarshalJSON goStd e (str "\"BAD_EMAIL\"")
          = (e, some GoError.Err_FailedToParseEmail)) := by
  refine ⟨?_, ?_, ?_⟩
  · intro env hEmpty e data
    have hnil : (NewEmail env []).2 ≠ none := by
      rw [newEmail_of_rejected env [] hEmpty]; simp
    refine ⟨?_, ?_, ?_⟩
    · rw [unmarshalJSON_eq]
      unfold json.Unmarshal
      cases hs : json.stringValue data with
      | some t =>
        by_cases ht : (NewEmail env t).2 = none <;> simp [ht]
      | none =>
        by_cases hn : json.isNull data = true
        · simp [hn, hnil]
        · simp [hn]
    · intro t hs ht
      rw [unmarshalJSON_eq]
      simp [json.Unmarshal, hs, ht]
    · rw [unmarshalJSON_eq]
      cases json.Unmarshal data [] with
      | none => simp
      | some t => by_cases ht : (NewEmail env t).2 = none <;> simp [ht]
  · intro e
    have h : json.Unmarshal (str "123") [] = none := by decide
    rw [unmarshalJSON_eq, h]
  · intro e
    have h : json.Unmarshal (str "\"BAD_EMAIL\"") [] = some (str "BAD_EMAIL") := by decide
    have h2 : (NewEmail goStd (str "BAD_EMAIL")).2 ≠ none := by decide
    rw [unmarshalJSON_eq, h]
    simp only [h2, if_false]

/-- Witness of C5: `goStd` refuses the empty string, and the JSON string
`"sample@example.com"` is decoded into the `Email` of that address. -/
theorem C5_unmarshalJSON_witness :
    goStd.ParseAddress (goStd.ToLower (goStd.TrimSpace [])) = false
    ∧ json.stringValue (str "\"sample@example.com\"") = some (str "sample@example.com")
    ∧ (NewEmail goStd (str "sample@example.com")).2 = none
    ∧ Email.UnmarshalJSON goStd Email.zero (str "\"sample@example.com\"")
        = ((NewEmail goStd (str "sample@example.com")).1, none) := by
  have h0 : goStd.ParseAddress (goStd.ToLower (goStd.TrimSpace [])) = false := by decide
  have h1 : json.stringValue (str "\"sample@example.com\"") = some (str "sample@example.com") := by
    decide
  have h2 : (NewEmail goStd (str "sample@example.com")).2 = none := by decide
  exact ⟨h0, h1, h2,
    (C5_unmarshalJSON.1 goStd h0 Email.zero (str "\"sample@example.com\"")).2.1 _ h1 h2⟩

/-- C6: for every string `s`, `Scan(s)` and `Scan([]byte(s))` give the same
result, and it is that of `NewEmail(s)`: when `NewEmail(s)` succeeds with `m`,
`Scan` returns nil and the receiver becomes `m`; when it fails, `Scan` returns
the sentinel `Err_FailedToParseEmail`.  `"user@example.com"` succeeds and
`"not-an-email"` fails, as a string and as bytes. -/
theorem C6_scan_string_bytes :
    (∀ (env : Stdlib) (e : Email) (s : GoString),
      Email.Scan env e (GoValue.bytes s) = Email.Scan env e (GoValue.string s)
      ∧ (∀ m, NewEmail env s = (m, none) → Email.Scan env e (GoValue.string s) = (m, none))
      ∧ ((NewEmail env s).2 ≠ none →
          (Email.Scan env e (GoValue.string s)).2 = some GoError.Err_FailedToParseEmail))
    ∧ Email.Scan goStd Email.zero (GoValue.string (str "user@example.com"))
        = (⟨str "user@example.com", str "b58996c504c5638798eb6b511e6f49af"⟩, none)
    ∧ Email.Scan goStd Email.zero (GoValue.bytes (str "user@example.com"))
        = (⟨str "user@example.com", str "b58996c504c5638798eb6b511e6f49af"⟩, none)
    ∧ (Email.Scan goStd Email.zero (GoValue.string (str "not-an-email"))).2
        = some GoError.Err_FailedToParseEmail
    ∧ (Email.Scan goStd Email.zero (GoValue.bytes (str "not-an-email"))).2
        = some GoError.Err_FailedToParseEmail := by
  refine ⟨?_, by decide, by decide, by decide, by decide⟩
  intro env e s
  refine ⟨scan_bytes env e s, ?_, ?_⟩
  · intro m hm
    rw [scan_string, hm]
    simp
  · intro hne
    rw [scan_string]
    cases hp : env.ParseAddress (env.ToLower (env.TrimSpace s))
    · simp [newEmail_of_rejected env s hp]
    · exact absurd ((newEmail_err_eq_none_iff env s).2 hp) hne

/-- Witness of C6: `NewEmail("user@example.com")` succeeds, and `Scan` of that
string into a populated receiver leaves the receiver equal to its result. -/
theorem C6_scan_string_bytes_witness :
    NewEmail goStd (str "user@example.com")
      = (⟨str "user@example.com", str "b58996c504c5638798eb6b511e6f49af"⟩, none)
    ∧ Email.Scan goStd (NewEmail goStd (str "sample@example.com")).1
        (GoValue.string (str "user@example.com"))
      = (⟨str "user@example.com", str "b58996c504c5638798eb6b511e6f49af"⟩, none) := by
  have h : NewEmail goStd (str "user@example.com")
      = (⟨str "user@example.com", str "b58996c504c5638798eb6b511e6f49af"⟩, none) := by decide
  exact ⟨h, (C6_scan_string_bytes.1 goStd _ (str "user@example.com")).2.1 _ h⟩

/-- C7: whatever the receiver held, `Scan(nil)` returns a nil error and
leaves the receiver equal to the zero value, whose `IsEmpty()` is true and
whose key is the empty string. -/
theorem C7_scan_nil (env : Stdlib) (e : Email) :
    Email.Scan env e GoValue.nil = (Email.zero, none)
    ∧ (Email.Scan env e GoValue.nil).1.IsEmpty = true
    ∧ (Email.Scan env e GoValue.nil).1.key = [] := by
  exact ⟨rfl, rfl, rfl⟩

/-- C8: `Scan` returns an error other than the sentinel
`Err_FailedToParseEmail` exactly when the dynamic type of the value is
neither nil, `string` nor `[]byte`; the error is then the non-nil
`failed to scan email` error carrying the value, and the receiver is not
touched.  The integer `123` is such a value. -/
theorem C8_scan_unsupported_type (env : Stdlib) (e : Email) (value : GoValue) :
    ((∃ err, (Email.Scan env e value).2 = some err ∧ err ≠ GoError.Err_FailedToParseEmail)
        ↔ ∃ t v, value = GoValue.other t v)
    ∧ (∀ t v, Email.Scan env e (GoValue.other t v)
        = (e, some (GoError.Errorf "failed to scan email: %v" (GoValue.other t v))))
    ∧ Email.Scan env e (GoValue.other "int" "123")
        = (e, some (GoError.Errorf "failed to scan email: %v" (GoValue.other "int" "123")))
    ∧ GoError.Errorf "failed to scan email: %v" (GoValue.other "int" "123")
        ≠ GoError.Err_FailedToParseEmail := by
  refine ⟨?_, fun _ _ => rfl, rfl, by decide⟩
  cases value with
  | nil => simp [Email.Scan]
  | string s =>
    rw [scan_string]
    cases hp : env.ParseAddress (env.ToLower (env.TrimSpace s))
    · simp [newEmail_of_rejected env s hp]
    · simp [newEmail_of_accepted env s hp]
  | bytes b =>
    rw [scan_bytes, scan_string]
    cases hp : env.ParseAddress (env.ToLower (env.TrimSpace b))
    · simp [newEmail_of_rejected env b hp]
    · simp [newEmail_of_accepted env b hp]
  | other t v => simp [Email.Scan]

/-- C9: for every `Email`, `Value()` returns a nil error; it returns nil (SQL
NULL) exactly when `IsEmpty()` holds, and otherwise the address as a string,
not the key.  The `Email` of `"example@example.com"` gives that string, the
zero value that `NewEmail("")` returns gives NULL. -/
theorem C9_value :
    (∀ e : Email,
      e.Value.2 = none
      ∧ (e.Value.1 = GoValue.nil ↔ e.IsEmpty = true)
      ∧ (e.IsEmpty = false → e.Value = (GoValue.string e.email, none)))
    ∧ (NewEmail goStd (str "example@example.com")).1.Value
        = (GoValue.string (str "example@example.com"), none)
    ∧ (NewEmail goStd (str "example@example.com")).1.Key
        = str "23463b99b62a72f26ed677cc556c44e8"
    ∧ (NewEmail goStd (str "")).1 = Email.zero
    ∧ (NewEmail goStd (str "")).1.Value = (GoValue.nil, none) := by
  refine ⟨?_, by decide, by decide, by decide, by decide⟩
  intro e
  unfold Email.Value
  cases h : e.IsEmpty <;> simp

/-- Witness of C9: a populated `Email` is not empty and `Value()` returns its
address. -/
theorem C9_value_witness :
    (NewEmail goStd (str "user@example.com")).1.IsEmpty = false
    ∧ (NewEmail goStd (str "user@example.com")).1.Value
        = (GoValue.string (NewEmail goStd (str "user@example.com")).1.email, none) := by
  have h : (NewEmail goStd (str "user@example.com")).1.IsEmpty = false := by decide
  exact ⟨h, (C9_value.1 _).2.2 h⟩

/-- C10, as stated, fails at the zero value: it is reachable, its address is
the empty string and its key is the empty string, which is not the MD5 digest
`d41d8cd98f00b204e9800998ecf8427e` of the empty string. -/
theorem C10_zero_value_key_not_digest :
    Reachable goStd Email.zero
    ∧ Email.zero.email = str ""
    ∧ Email.zero.key = str ""
    ∧ hex.EncodeToString (md5.Sum Email.zero.email) = str "d41d8cd98f00b204e9800998ecf8427e"
    ∧ ¬ (∀ e : Email, Reachable goStd e → e.key = hex.EncodeToString (md5.Sum e.email)) := by
  refine ⟨Reachable.zero, by decide, by decide, by decide, ?_⟩
  intro h
  have hz := h Email.zero Reachable.zero
  revert hz
  decide

/-- C10, amended: every `Email` reachable through the exposed operations is
the zero value (address and key both empty) or has a key that is the MD5
hexadecimal digest of its address. -/
theorem C10_key_in_sync (env : Stdlib) (e : Email) (h : Reachable env e) :
    e = Email.zero ∨ e.key = hex.EncodeToString (md5.Sum e.email) := by
  have hnew : ∀ s, (NewEmail env s).1 = Email.zero
      ∨ (NewEmail env s).1.key = hex.EncodeToString (md5.Sum (NewEmail env s).1.email) := by
    intro s
    cases hp : env.ParseAddress (env.ToLower (env.TrimSpace s))
    · left; rw [newEmail_of_rejected env s hp]
    · right; rw [newEmail_of_accepted env s hp]
  induction h with
  | zero => exact Or.inl rfl
  | newEmail s => exact hnew s
  | scan e value _ ih =>
    cases value with
    | nil => exact Or.inl rfl
    | string s =>
      rw [scan_string]
      by_cases hs : (NewEmail env s).2 = none
      · simpa [hs] using hnew s
      · simpa [hs] using ih
    | bytes b =>
      rw [scan_bytes, scan_string]
      by_cases hs : (NewEmail env b).2 = none
      · simpa [hs] using hnew b
      · simpa [hs] using ih
    | other t v => exact ih
  | unmarshalJSON e data _ ih =>
    rw [unmarshalJSON_eq]
    cases json.Unmarshal data [] with
    | none => exact ih
    | some t =>
      by_cases hs : (NewEmail env t).2 = none
      · simpa [hs] using hnew t
      · simpa [hs] using ih

/-- Witness of the amended C10: the receiver after scanning
`"user@example.com"` into the `Email` of `"sample@example.com"` is reachable,
is not the zero value, and its key is the digest of its address. -/
theorem C10_key_in_sync_witness :
    Reachable goStd (Email.Scan goStd (NewEmail goStd (str "sample@example.com")).1
        (GoValue.string (str "user@example.com"))).1
    ∧ (Email.Scan goStd (NewEmail goStd (str "sample@example.com")).1
        (GoValue.string (str "user@example.com"))).1 ≠ Email.zero
    ∧ ((Email.Scan goStd (NewEmail goStd (str "sample@example.com")).1
          (GoValue.string (str "user@example.com"))).1 = Email.zero
      ∨ (Email.Scan goStd (NewEmail goStd (str "sample@example.com")).1
          (GoValue.string (str "user@example.com"))).1.key
        = hex.EncodeToString (md5.Sum (Email.Scan goStd
            (NewEmail goStd (str "sample@example.com")).1
            (GoValue.string (str "user@example.com"))).1.email)) := by
  have hr : Reachable goStd (Email.Scan goStd (NewEmail goStd (str "sample@example.com")).1
      (GoValue.string (str "user@example.com"))).1 :=
    Reachable.scan _ _ (Reachable.newEmail _)
  exact ⟨hr, by decide, C10_key_in_sync goStd _ hr⟩

/-- C11: every `Email` reachable through the exposed operations has an
address that is empty or passes address validation, and the address is the
normalized form of the string it was built from.  With `strings.TrimSpace`
and `strings.ToLower`, and whatever address validation accepts, a reachable
address that is not empty passes validation and equals its own normalized
form.  No reachable `Email` holds an invalid non-empty address. -/
theorem C11_validated_address :
    (∀ (env : Stdlib) (e : Email), Reachable env e →
      e.email = [] ∨ (env.ParseAddress e.email = true
        ∧ ∃ s, e.email = env.ToLower (env.TrimSpace s)))
    ∧ (∀ (P : GoString → Bool) (e : Email), Reachable (goLib P) e →
        e.email = [] ∨ (P e.email = true
          ∧ strings.ToLower (strings.TrimSpace e.email) = e.email)) := by
  have first : ∀ (env : Stdlib) (e : Email), Reachable env e →
      e.email = [] ∨ (env.ParseAddress e.email = true
        ∧ ∃ s, e.email = env.ToLower (env.TrimSpace s)) := by
    intro env e h
    rcases reachable_cases env e h with h0 | ⟨s, hs, he⟩
    · left; rw [h0]; rfl
    · right
      have hp := (newEmail_err_eq_none_iff env s).1 hs
      have hm : e.email = env.ToLower (env.TrimSpace s) := by
        rw [he, newEmail_of_accepted env s hp]
      exact ⟨by rw [hm]; exact hp, s, hm⟩
  refine ⟨first, ?_⟩
  intro P e h
  rcases first (goLib P) e h with h0 | ⟨hp, s, hm⟩
  · exact Or.inl h0
  · right
    refine ⟨hp, ?_⟩
    rw [hm]
    exact strings.normalize_idempotent s

/-- Witness of C11: the receiver after scanning `" User@Example.com"` into
the zero value is reachable; its address `user@example.com` passes validation
and is its own normalized form. -/
theorem C11_validated_address_witness :
    Reachable goStd (Email.Scan goStd Email.zero (GoValue.string (str " User@Example.com"))).1
    ∧ (Email.Scan goStd Email.zero (GoValue.string (str " User@Example.com"))).1.email
        = str "user@example.com"
    ∧ ((Email.Scan goStd Email.zero (GoValue.string (str " User@Example.com"))).1.email = []
      ∨ (mail.ParseAddress
            (Email.Scan goStd Email.zero (GoValue.string (str " User@Example.com"))).1.email
          = true
        ∧ strings.ToLower (strings.TrimSpace
            (Email.Scan goStd Email.zero (GoValue.string (str " User@Example.com"))).1.email)
          = (Email.Scan goStd Email.zero
              (GoValue.string (str " User@Example.com"))).1.email)) := by
  have hr : Reachable goStd
      (Email.Scan goStd Email.zero (GoValue.string (str " User@Example.com"))).1 :=
    Reachable.scan _ _ Reachable.zero
  exact ⟨hr, by decide, C11_validated_address.2 mail.ParseAddress _ hr⟩

/-- C12: `Equal` agrees with key equality, `a.Equal(b) = (a.Key() == b.Key())`,
and is reflexive, symmetric and transitive on all `Email` values; two `Email`s
built by `NewEmail` from the same string, such as `"sample@example.com"`, are
`Equal`. -/
theorem C12_equal_equivalence :
    (∀ a b : Email, a.Equal b = (a.Key == b.Key))
    ∧ (∀ a b : Email, a.Equal b = true ↔ a.Key = b.Key)
    ∧ (∀ a : Email, a.Equal a = true)
    ∧ (∀ a b : Email, a.Equal b = b.Equal a)
    ∧ (∀ a b : Email, a.Equal b = true → b.Equal a = true)
    ∧ (∀ a b c : Email, a.Equal b = true → b.Equal c = true → a.Equal c = true)
    ∧ (∀ (env : Stdlib) (s : GoString), (NewEmail env s).1.Equal (NewEmail env s).1 = true)
    ∧ (NewEmail goStd (str "sample@example.com")).2 = none
    ∧ (NewEmail goStd (str "sample@example.com")).1.Equal
        (NewEmail goStd (str "sample@example.com")).1 = true := by
  have hiff : ∀ a b : Email, a.Equal b = true ↔ a.Key = b.Key := by
    intro a b
    simp [Email.Equal, Email.Key]
  refine ⟨fun _ _ => rfl, hiff, ?_, ?_, ?_, ?_, ?_, by decide, ?_⟩
  · intro a; exact (hiff a a).2 rfl
  · intro a b
    apply Bool.eq_iff_iff.mpr
    rw [hiff a b, hiff b a]
    exact eq_comm
  · intro a b h; exact (hiff b a).2 ((hiff a b).1 h).symm
  · intro a b c h1 h2; exact (hiff a c).2 (((hiff a b).1 h1).trans ((hiff b c).1 h2))
  · intro env s; exact (hiff _ _).2 rfl
  · exact (hiff _ _).2 rfl

/-- Witness of C12: the `Email`s of `"Sample@Example.com "` and
`"sample@example.com"` are `Equal`, in both directions. -/
theorem C12_equal_equivalence_witness :
    (NewEmail goStd (str "Sample@Example.com ")).1.Equal
        (NewEmail goStd (str "sample@example.com")).1 = true
    ∧ (NewEmail goStd (str "sample@example.com")).1.Equal
        (NewEmail goStd (str "Sample@Example.com ")).1 = true := by
  have h : (NewEmail goStd (str "Sample@Example.com ")).1.Equal
      (NewEmail goStd (str "sample@example.com")).1 = true := by decide
  exact ⟨h, C12_equal_equivalence.2.2.2.2.1 _ _ h⟩

/-- C13: for every `Email` returned by a successful `NewEmail`, `String()`
equals `Key()`, and that string has length 32 and consists of the characters
`0`-`9` and `a`-`f` only. -/
theorem C13_key_shape (env : Stdlib) (s : GoString) (h : (NewEmail env s).2 = none) :
    (NewEmail env s).1.String = (NewEmail env s).1.Key
    ∧ (NewEmail env s).1.Key.length = 32
    ∧ ∀ c ∈ (NewEmail env s).1.Key, hex.isLowerHex c = true := by
  have hp := (newEmail_err_eq_none_iff env s).1 h
  rw [newEmail_of_accepted env s hp]
  refine ⟨rfl, ?_, ?_⟩
  · simp [Email.Key, hex.EncodeToString_length, md5.Sum_length]
  · exact hex.EncodeToString_isLowerHex _ (md5.Sum_lt _)

/-- Witness of C13 at `"sample@example.com"`, whose key is
`45e67126a4c44c6ae030279e21437c79`. -/
theorem C13_key_shape_witness :
    (NewEmail goStd (str "sample@example.com")).2 = none
    ∧ (NewEmail goStd (str "sample@example.com")).1.String
        = str "45e67126a4c44c6ae030279e21437c79"
    ∧ (NewEmail goStd (str "sample@example.com")).1.Key.length = 32
    ∧ ∀ c ∈ (NewEmail goStd (str "sample@example.com")).1.Key, hex.isLowerHex c = true := by
  have h : (NewEmail goStd (str "sample@example.com")).2 = none := by decide
  have w := C13_key_shape goStd (str "sample@example.com") h
  exact ⟨h, by decide, w.2.1, w.2.2⟩

/-- C14: `IsEmpty()` is true exactly when the address is the empty string.
Where address validation refuses the empty string, every `Email` returned by
a successful `NewEmail`, or left in the receiver by a successful `Scan` of a
string or of bytes or by a successful `UnmarshalJSON`, has `IsEmpty()` false,
and every input whose normalized form is empty is refused.  With `goStd`,
`NewEmail("")` and `NewEmail` of any string of white space fail with the
sentinel and return the zero value. -/
theorem C14_empty_distinguished :
    (∀ e : Email, e.IsEmpty = true ↔ e.email = [])
    ∧ (∀ env : Stdlib, env.ParseAddress [] = false →
        (∀ s : GoString, (NewEmail env s).2 = none → (NewEmail env s).1.IsEmpty = false)
        ∧ (∀ (e : Email) (s : GoString), (Email.Scan env e (GoValue.string s)).2 = none →
            (Email.Scan env e (GoValue.string s)).1.IsEmpty = false)
        ∧ (∀ (e : Email) (b : List Nat), (Email.Scan env e (GoValue.bytes b)).2 = none →
            (Email.Scan env e (GoValue.bytes b)).1.IsEmpty = false)
        ∧ (∀ (e : Email) (data : List Nat), (Email.UnmarshalJSON env e data).2 = none →
            (Email.UnmarshalJSON env e data).1.IsEmpty = false)
        ∧ (∀ s : GoString, env.ToLower (env.TrimSpace s) = [] →
            NewEmail env s = (Email.zero, some GoError.Err_FailedToParseEmail)))
    ∧ goStd.ParseAddress [] = false
    ∧ NewEmail goStd (str "") = (Email.zero, some GoError.Err_FailedToParseEmail)
    ∧ (∀ s : GoString, s.all strings.asciiSpace = true →
        NewEmail goStd s = (Email.zero, some GoError.Err_FailedToParseEmail))
    ∧ NewEmail goStd (str " \t\r\n ") = (Email.zero, some GoError.Err_FailedToParseEmail) := by
  refine ⟨?_, ?_, by decide, by decide, ?_, by decide⟩
  · intro e
    simp [Email.IsEmpty]
  · intro env hEmpty
    have hnew : ∀ s : GoString, (NewEmail env s).2 = none →
        (NewEmail env s).1.IsEmpty = false := by
      intro s hs
      have hne := newEmail_email_ne_nil env hEmpty s hs
      simpa [Email.IsEmpty] using hne
    have hscan : ∀ (e : Email) (s : GoString),
        (Email.Scan env e (GoValue.string s)).2 = none →
        (Email.Scan env e (GoValue.string s)).1.IsEmpty = false := by
      intro e s
      rw [scan_string]
      by_cases hs : (NewEmail env s).2 = none
      · intro _; simpa [hs] using hnew s hs
      · intro h; simp [hs] at h
    refine ⟨hnew, hscan, ?_, ?_, ?_⟩
    · intro e b
      rw [scan_bytes]
      exact hscan e b
    · intro e data
      rw [unmarshalJSON_eq]
      cases json.Unmarshal data [] with
      | none => intro h; simp at h
      | some t =>
        by_cases hs : (NewEmail env t).2 = none
        · intro _; simpa [hs] using hnew t hs
        · intro h; simp [hs] at h
    · intro s hs
      apply newEmail_of_rejected
      rw [hs]
      exact hEmpty
  · intro s hs
    apply newEmail_of_rejected
    have ht : goStd.TrimSpace s = [] := strings.trimSpace_of_all_space s hs
    rw [ht]
    decide

/-- Witness of C14: `goStd` refuses the empty string, `NewEmail` accepts
`"user@example.com"`, and the result is not empty. -/
theorem C14_empty_distinguished_witness :
    goStd.ParseAddress [] = false
    ∧ (NewEmail goStd (str "user@example.com")).2 = none
    ∧ (NewEmail goStd (str "user@example.com")).1.IsEmpty = false := by
  have h0 : goStd.ParseAddress [] = false := by decide
  have h1 : (NewEmail goStd (str "user@example.com")).2 = none := by decide
  exact ⟨h0, h1, (C14_empty_distinguished.2.1 goStd h0).1 _ h1⟩

/-- C15, as stated, fails: `Scan("user@example.com")` on the populated
`Email` of `"sample@example.com"` returns nil and replaces the address and the
key, and `UnmarshalJSON` does the same; neither call is a `Scan(nil)`. -/
theorem C15_scan_replaces_populated :
    (NewEmail goStd (str "sample@example.com")).1
      = ⟨str "sample@example.com", str "45e67126a4c44c6ae030279e21437c79"⟩
    ∧ (NewEmail goStd (str "sample@example.com")).1.IsEmpty = false
    ∧ Email.Scan goStd (NewEmail goStd (str "sample@example.com")).1
        (GoValue.string (str "user@example.com"))
      = (⟨str "user@example.com", str "b58996c504c5638798eb6b511e6f49af"⟩, none)
    ∧ Email.UnmarshalJSON goStd (NewEmail goStd (str "sample@example.com")).1
        (str "\"user@example.com\"")
      = (⟨str "user@example.com", str "b58996c504c5638798eb6b511e6f49af"⟩, none)
    ∧ ¬ (∀ (e : Email) (call : Call), e.IsEmpty = false →
          call.after goStd e = e
          ∨ (call = Call.Scan GoValue.nil ∧ call.after goStd e = Email.zero)) := by
  refine ⟨by decide, by decide, by decide, by decide, ?_⟩
  intro h
  have hc := h (NewEmail goStd (str "sample@example.com")).1
    (Call.Scan (GoValue.string (str "user@example.com"))) (by decide)
  have hs : (Call.Scan (GoValue.string (str "user@example.com"))).after goStd
      (NewEmail goStd (str "sample@example.com")).1
      = ⟨str "user@example.com", str "b58996c504c5638798eb6b511e6f49af"⟩ := by decide
  rw [hs] at hc
  rcases hc with hc | ⟨hc, _⟩
  · revert hc; decide
  · exact Call.noConfusion hc (fun hv => GoValue.noConfusion hv)

/-- C15, amended: let `e` be a populated `Email`, and let address validation
refuse the empty string.  The methods `MarshalJSON`, `String`, `Key`, `Equal`,
`IsEmpty` and `Value` leave `e` as it was.  After `Scan` and `UnmarshalJSON`
the variable holds the receiver that the method returns: `e` itself when the
method returns an error; when `NewEmail` accepts `s`, a `Scan` of the string
or of the bytes `s`, and an `UnmarshalJSON` of JSON that decodes to `s`,
return nil and replace `e` by the `Email` of `s`, which holds the normalized
form of `s` and its digest and is not empty; `Scan` and `UnmarshalJSON` return
nil in these cases only, and `Scan(nil)`, which returns nil and stores the
zero value.  `Scan(nil)` is the one call after which the `Email` is empty. -/
theorem C15_populated_transitions (env : Stdlib) (hEmpty : env.ParseAddress [] = false)
    (e : Email) (he : e.IsEmpty = false) :
    (Call.MarshalJSON.after env e = e ∧ Call.String.after env e = e
      ∧ Call.Key.after env e = e ∧ (∀ other : Email, (Call.Equal other).after env e = e)
      ∧ Call.IsEmpty.after env e = e ∧ Call.Value.after env e = e)
    ∧ (∀ value : GoValue, (Call.Scan value).after env e = (Email.Scan env e value).1)
    ∧ (∀ data : List Nat,
        (Call.UnmarshalJSON data).after env e = (Email.UnmarshalJSON env e data).1)
    ∧ (∀ value : GoValue, (Email.Scan env e value).2 ≠ none →
        (Call.Scan value).after env e = e)
    ∧ (∀ data : List Nat, (Email.UnmarshalJSON env e data).2 ≠ none →
        (Call.UnmarshalJSON data).after env e = e)
    ∧ (∀ s : GoString, (NewEmail env s).2 = none →
        Email.Scan env e (GoValue.string s) = ((NewEmail env s).1, none)
        ∧ Email.Scan env e (GoValue.bytes s) = ((NewEmail env s).1, none)
        ∧ (∀ data : List Nat, json.Unmarshal data [] = some s →
            Email.UnmarshalJSON env e data = ((NewEmail env s).1, none))
        ∧ (NewEmail env s).1
            = ⟨env.ToLower (env.TrimSpace s),
                hex.EncodeToString (md5.Sum (env.ToLower (env.TrimSpace s)))⟩
        ∧ (NewEmail env s).1.IsEmpty = false)
    ∧ (∀ value : GoValue, (Email.Scan env e value).2 = none →
        value = GoValue.nil
        ∨ ∃ s, (value = GoValue.string s ∨ value = GoValue.bytes s)
            ∧ (NewEmail env s).2 = none)
    ∧ (∀ data : List Nat, (Email.UnmarshalJSON env e data).2 = none →
        ∃ s, json.Unmarshal data [] = some s ∧ (NewEmail env s).2 = none)
    ∧ Email.Scan env e GoValue.nil = (Email.zero, none)
    ∧ (∀ call : Call, (call.after env e).IsEmpty = true ↔ call = Call.Scan GoValue.nil) := by
  have hnew : ∀ s : GoString, (NewEmail env s).2 = none →
      (NewEmail env s).1.IsEmpty = false := by
    intro s hs
    have hne := newEmail_email_ne_nil env hEmpty s hs
    simpa [Email.IsEmpty] using hne
  have hne : ∀ x : Email, x.IsEmpty = true → x ≠ e := by
    intro x hx hxe
    rw [hxe, he] at hx
    exact Bool.noConfusion hx
  have hscan : ∀ s : GoString, (NewEmail env s).2 = none →
      Email.Scan env e (GoValue.string s) = ((NewEmail env s).1, none) := by
    intro s hs
    rw [scan_string]
    simp only [hs, if_true]
  have hscanErr : ∀ s : GoString, (NewEmail env s).2 ≠ none →
      Email.Scan env e (GoValue.string s) = (e, (NewEmail env s).2) := by
    intro s hs
    rw [scan_string]
    simp only [hs, if_false]
  have hjson : ∀ (data : List Nat) (s : GoString), json.Unmarshal data [] = some s →
      (NewEmail env s).2 = none →
      Email.UnmarshalJSON env e data = ((NewEmail env s).1, none) := by
    intro data s hj hs
    rw [unmarshalJSON_eq, hj]
    simp only [hs, if_true]
  refine ⟨⟨rfl, rfl, rfl, fun _ => rfl, rfl, rfl⟩, fun _ => rfl, fun _ => rfl,
    ?_, ?_, ?_, ?_, ?_, rfl, ?_⟩
  · intro value h
    exact scan_receiver_of_error env e value h
  · intro data h
    exact unmarshalJSON_receiver_of_error env e data h
  · intro s hs
    refine ⟨hscan s hs, ?_, fun data hj => hjson data s hj hs, ?_, hnew s hs⟩
    · rw [scan_bytes]; exact hscan s hs
    · rw [newEmail_of_accepted env s ((newEmail_err_eq_none_iff env s).1 hs)]
  · intro value h
    cases value with
    | nil => exact Or.inl rfl
    | string s =>
      right
      refine ⟨s, Or.inl rfl, ?_⟩
      by_contra hs
      rw [hscanErr s hs] at h
      exact hs h
    | bytes b =>
      right
      refine ⟨b, Or.inr rfl, ?_⟩
      by_contra hs
      rw [scan_bytes, hscanErr b hs] at h
      exact hs h
    | other t v => exact absurd h (by simp [Email.Scan])
  · intro data h
    rw [unmarshalJSON_eq] at h
    cases hj : json.Unmarshal data [] with
    | none => rw [hj] at h; exact absurd h (by simp)
    | some t =>
      rw [hj] at h
      refine ⟨t, rfl, ?_⟩
      by_contra hs
      simp only [hs, if_false] at h
      exact absurd h (by simp)
  · intro call
    constructor
    · intro h
      cases call with
      | MarshalJSON => exact absurd rfl (hne _ h)
      | String => exact absurd rfl (hne _ h)
      | Key => exact absurd rfl (hne _ h)
      | Equal other => exact absurd rfl (hne _ h)
      | IsEmpty => exact absurd rfl (hne _ h)
      | Value => exact absurd rfl (hne _ h)
      | UnmarshalJSON data =>
        exfalso
        simp only [Call.after] at h
        by_cases herr : (Email.UnmarshalJSON env e data).2 = none
        · rw [unmarshalJSON_eq] at h herr
          cases hj : json.Unmarshal data [] with
          | none => rw [hj] at herr; exact absurd herr (by simp)
          | some t =>
            rw [hj] at h herr
            by_cases hs : (NewEmail env t).2 = none
            · simp only [hs, if_true] at h
              rw [hnew t hs] at h
              exact Bool.noConfusion h
            · simp only [hs, if_false] at herr
              exact absurd herr (by simp)
        · rw [unmarshalJSON_receiver_of_error env e data herr] at h
          exact hne _ h rfl
      | Scan value =>
        cases value with
        | nil => rfl
        | string s =>
          exfalso
          simp only [Call.after] at h
          by_cases hs : (NewEmail env s).2 = none
          · rw [hscan s hs, hnew s hs] at h
            exact Bool.noConfusion h
          · rw [hscanErr s hs] at h
            exact hne _ h rfl
        | bytes b =>
          exfalso
          simp only [Call.after] at h
          rw [scan_bytes] at h
          by_cases hs : (NewEmail env b).2 = none
          · rw [hscan b hs, hnew b hs] at h
            exact Bool.noConfusion h
          · rw [hscanErr b hs] at h
            exact hne _ h rfl
        | other t v => exact absurd rfl (hne _ h)
    · intro h
      rw [h]
      rfl

/-- Witness of the amended C15: on the populated `Email` of
`"sample@example.com"`, `Scan(" User@Example.com")` returns nil and replaces
the address and the key by those of `user@example.com`; the variable is not
empty afterwards, and it is empty after `Scan(nil)`. -/
theorem C15_populated_transitions_witness :
    goStd.ParseAddress [] = false
    ∧ (NewEmail goStd (str "sample@example.com")).1.IsEmpty = false
    ∧ (NewEmail goStd (str " User@Example.com")).2 = none
    ∧ Email.Scan goStd (NewEmail goStd (str "sample@example.com")).1
        (GoValue.string (str " User@Example.com"))
      = ((NewEmail goStd (str " User@Example.com")).1, none)
    ∧ (NewEmail goStd (str " User@Example.com")).1
      = ⟨str "user@example.com", str "b58996c504c5638798eb6b511e6f49af"⟩
    ∧ (((Call.Scan GoValue.nil).after goStd
          (NewEmail goStd (str "sample@example.com")).1).IsEmpty = true
        ↔ Call.Scan GoValue.nil = Call.Scan GoValue.nil) := by
  have h0 : goStd.ParseAddress [] = false := by decide
  have h1 : (NewEmail goStd (str "sample@example.com")).1.IsEmpty = false := by decide
  have h2 : (NewEmail goStd (str " User@Example.com")).2 = none := by decide
  have h := C15_populated_transitions goStd h0 _ h1
  exact ⟨h0, h1, h2, (h.2.2.2.2.2.1 _ h2).1, by decide, h.2.2.2.2.2.2.2.2.2 _⟩

/-- C16: whenever `Scan` or `UnmarshalJSON` returns a non-nil error, the
address and key of the receiver are what they were before the call, whatever
the receiver held.  On the populated `Email` of `"sample@example.com"` this is
so for an invalid address, for a value of an unsupported type and for JSON
that is not a string. -/
theorem C16_error_atomicity :
    (∀ (env : Stdlib) (e : Email) (value : GoValue),
      (Email.Scan env e value).2 ≠ none → (Email.Scan env e value).1 = e)
    ∧ (∀ (env : Stdlib) (e : Email) (data : List Nat),
      (Email.UnmarshalJSON env e data).2 ≠ none → (Email.UnmarshalJSON env e data).1 = e)
    ∧ Email.Scan goStd (NewEmail goStd (str "sample@example.com")).1
        (GoValue.string (str "not-an-email"))
      = ((NewEmail goStd (str "sample@example.com")).1,
          some GoError.Err_FailedToParseEmail)
    ∧ Email.Scan goStd (NewEmail goStd (str "sample@example.com")).1
        (GoValue.other "int" "123")
      = ((NewEmail goStd (str "sample@example.com")).1,
          some (GoError.Errorf "failed to scan email: %v" (GoValue.other "int" "123")))
    ∧ Email.UnmarshalJSON goStd (NewEmail goStd (str "sample@example.com")).1 (str "123")
      = ((NewEmail goStd (str "sample@example.com")).1,
          some GoError.Err_FailedToParseEmail)
    ∧ Email.UnmarshalJSON goStd (NewEmail goStd (str "sample@example.com")).1
        (str "\"BAD_EMAIL\"")
      = ((NewEmail goStd (str "sample@example.com")).1,
          some GoError.Err_FailedToParseEmail) := by
  refine ⟨?_, ?_, by decide, by decide, by decide, by decide⟩
  · intro env e value
    cases value with
    | nil => intro h; exact absurd rfl h
    | string s =>
      rw [scan_string]
      by_cases hs : (NewEmail env s).2 = none
      · intro h; simp [hs] at h
      · intro _; simp [hs]
    | bytes b =>
      rw [scan_bytes, scan_string]
      by_cases hs : (NewEmail env b).2 = none
      · intro h; simp [hs] at h
      · intro _; simp [hs]
    | other t v => intro _; rfl
  · intro env e data
    rw [unmarshalJSON_eq]
    cases json.Unmarshal data [] with
    | none => intro _; rfl
    | some t =>
      by_cases hs : (NewEmail env t).2 = none
      · intro h; simp [hs] at h
      · intro _; simp [hs]

/-- Witness of C16: `Scan("not-an-email")` on the populated `Email` of
`"user@example.com"` returns an error and leaves the receiver as it was. -/
theorem C16_error_atomicity_witness :
    (Email.Scan goStd (NewEmail goStd (str "user@example.com")).1
        (GoValue.bytes (str "not-an-email"))).2 ≠ none
    ∧ (Email.Scan goStd (NewEmail goStd (str "user@example.com")).1
        (GoValue.bytes (str "not-an-email"))).1
      = (NewEmail goStd (str "user@example.com")).1 := by
  have h : (Email.Scan goStd (NewEmail goStd (str "user@example.com")).1
      (GoValue.bytes (str "not-an-email"))).2 ≠ none := by decide
  exact ⟨h, C16_error_atomicity.1 goStd _ _ h⟩

/-- C17: with `strings.TrimSpace` and `strings.ToLower`, and an address
validation that refuses the empty string, for every `Email` `e` that is the
zero value or the result of a successful `NewEmail`, and for every receiver,
`Value()` returns a nil error and `Scan` of the value it returns (NULL or the
address) returns nil and leaves the receiver equal to `e`. -/
theorem C17_storage_round_trip (P : GoString → Bool) (hEmpty : P [] = false) (r : Email) :
    (Email.zero.Value = (GoValue.nil, none)
      ∧ Email.Scan (goLib P) r Email.zero.Value.1 = (Email.zero, none))
    ∧ ∀ s : GoString, (NewEmail (goLib P) s).2 = none →
        (NewEmail (goLib P) s).1.Value
          = (GoValue.string (NewEmail (goLib P) s).1.email, none)
        ∧ Email.Scan (goLib P) r (NewEmail (goLib P) s).1.Value.1
          = ((NewEmail (goLib P) s).1, none) := by
  refine ⟨⟨rfl, rfl⟩, ?_⟩
  intro s hs
  have hne := newEmail_email_ne_nil (goLib P) hEmpty s hs
  have hv : (NewEmail (goLib P) s).1.Value
      = (GoValue.string (NewEmail (goLib P) s).1.email, none) := by
    simp [Email.Value, Email.IsEmpty, hne]
  refine ⟨hv, ?_⟩
  rw [hv]
  have hp := (newEmail_err_eq_none_iff (goLib P) s).1 hs
  have hm : (NewEmail (goLib P) s).1.email = strings.ToLower (strings.TrimSpace s) := by
    rw [newEmail_of_accepted (goLib P) s hp]
    rfl
  have hn2 : NewEmail (goLib P) (NewEmail (goLib P) s).1.email = NewEmail (goLib P) s := by
    rw [hm]
    simp only [NewEmail, goLib, strings.normalize_idempotent s]
  rw [scan_string, hn2]
  simp only [hs, if_true]

/-- Witness of C17 with `goStd`: the value of the `Email` of
`"Sample@Example.com "`, scanned into the populated `Email` of
`"user@example.com"`, leaves the receiver equal to the first. -/
theorem C17_storage_round_trip_witness :
    mail.ParseAddress [] = false
    ∧ (NewEmail goStd (str "Sample@Example.com ")).2 = none
    ∧ (NewEmail goStd (str "Sample@Example.com ")).1.Value
        = (GoValue.string (str "sample@example.com"), none)
    ∧ Email.Scan goStd (NewEmail goStd (str "user@example.com")).1
        (NewEmail goStd (str "Sample@Example.com ")).1.Value.1
      = ((NewEmail goStd (str "Sample@Example.com ")).1, none) := by
  have h0 : mail.ParseAddress [] = false := by decide
  have h1 : (NewEmail goStd (str "Sample@Example.com ")).2 = none := by decide
  exact ⟨h0, h1, by decide,
    ((C17_storage_round_trip mail.ParseAddress h0
      (NewEmail goStd (str "user@example.com")).1).2 _ h1).2⟩

end Gext
